import Mathlib

/-!
Shallow embedding of the NewExchangeAll pump-detector core
(src/utils/helpers.py, src/core/scorer.py, src/core/scanner.py,
src/core/database.py, src/core/levels.py, src/core/signals.py),
with theorems settling the specification claims C1-C10.

Python floats are modelled as exact rationals (real-arithmetic semantics);
Python `round(x, n)` is modelled exactly as round-half-to-even at n decimals.
-/

set_option maxHeartbeats 1000000

namespace Pump

/-! ### Numeric helpers (src/utils/helpers.py) -/

/-- helpers.clamp: `max(min_val, min(max_val, value))`. -/
def clamp {α : Type} [LinearOrder α] (value minVal maxVal : α) : α :=
  max minVal (min maxVal value)

/-- helpers.safe_divide. -/
def safeDivide (numerator denominator default : ℚ) : ℚ :=
  if denominator = 0 then default else numerator / denominator

/-- Python `round` to integer: round half to even. -/
def roundHalfEven {α : Type} [LinearOrderedField α] [FloorRing α] (x : α) : ℤ :=
  if x - ⌊x⌋ < 1/2 then ⌊x⌋
  else if 1/2 < x - ⌊x⌋ then ⌊x⌋ + 1
  else if ⌊x⌋ % 2 = 0 then ⌊x⌋ else ⌊x⌋ + 1

/-- Python `round(x, n)` at `n` decimal places. -/
def pyRound {α : Type} [LinearOrderedField α] [FloorRing α] (n : ℕ) (x : α) : α :=
  (roundHalfEven (10 ^ n * x) : α) / 10 ^ n

/-- Python `int(x)`: truncation toward zero. -/
def pyInt (x : ℚ) : ℤ := if 0 ≤ x then ⌊x⌋ else -⌊-x⌋

def CRITICAL_THRESHOLD : ℚ := 78
def HIGH_ALERT_THRESHOLD : ℚ := 62
def WATCHLIST_THRESHOLD : ℚ := 48
def MONITOR_THRESHOLD : ℚ := 33

/-- helpers.classify_score. -/
def classifyScore (score : ℚ) : String :=
  if score ≥ CRITICAL_THRESHOLD then "CRITICAL"
  else if score ≥ HIGH_ALERT_THRESHOLD then "HIGH_ALERT"
  else if score ≥ WATCHLIST_THRESHOLD then "WATCHLIST"
  else if score ≥ MONITOR_THRESHOLD then "MONITOR"
  else "NONE"

/-- The scan loop of helpers.piecewise_lerp over consecutive breakpoint pairs
(first matching segment wins, 0.0 on fall-through). -/
def lerpScan {α : Type} [LinearOrderedField α] (value : α) : List (α × α) → α
  | (x0, y0) :: (x1, y1) :: rest =>
    if x0 ≤ value ∧ value ≤ x1 then
      if x1 = x0 then y0 else y0 + (value - x0) / (x1 - x0) * (y1 - y0)
    else lerpScan value ((x1, y1) :: rest)
  | _ => 0

/-- helpers.piecewise_lerp. -/
def piecewiseLerp {α : Type} [LinearOrderedField α] (value : α)
    (breakpoints : List (α × α)) : α :=
  match breakpoints with
  | [] => 0
  | b :: rest =>
    if value ≤ b.1 then b.2
    else
      let lastBp := (b :: rest).getLast (List.cons_ne_nil b rest)
      if lastBp.1 ≤ value then lastBp.2
      else lerpScan value (b :: rest)

/-! ### Scorer (src/core/scorer.py with constants from helpers.py) -/

/-- The nine signal names of SIGNAL_WEIGHTS. -/
inductive SigName where
  | oi_surge
  | funding_rate
  | liquidation_leverage
  | cross_exchange_volume
  | depth_imbalance
  | volume_price_decouple
  | volatility_compression
  | long_short_ratio
  | futures_spot_divergence
deriving DecidableEq, Repr, Fintype

/-- Iteration order of SIGNAL_WEIGHTS.items(). -/
def sigNames : List SigName :=
  [.oi_surge, .funding_rate, .liquidation_leverage, .cross_exchange_volume,
   .depth_imbalance, .volume_price_decouple, .volatility_compression,
   .long_short_ratio, .futures_spot_divergence]

def SIGNAL_WEIGHTS : SigName → ℚ
  | .oi_surge => 0.18
  | .funding_rate => 0.17
  | .liquidation_leverage => 0.15
  | .cross_exchange_volume => 0.12
  | .depth_imbalance => 0.11
  | .volume_price_decouple => 0.08
  | .volatility_compression => 0.08
  | .long_short_ratio => 0.06
  | .futures_spot_divergence => 0.05

structure InteractionBonus where
  name : String
  signals : List SigName
  min_score : ℚ
  bonus : ℚ

def squeezeSetup : InteractionBonus :=
  ⟨"squeeze_setup", [.oi_surge, .funding_rate, .volatility_compression], 45, 0.25⟩

def cascadeSetup : InteractionBonus :=
  ⟨"cascade_setup", [.liquidation_leverage, .funding_rate, .long_short_ratio], 40, 0.30⟩

def accumulationSetup : InteractionBonus :=
  ⟨"accumulation_setup", [.oi_surge, .volume_price_decouple, .cross_exchange_volume], 40, 0.20⟩

def INTERACTION_BONUSES : List InteractionBonus :=
  [squeezeSetup, cascadeSetup, accumulationSetup]

def EXTENDED_PRICE_PENALTY : ℚ := 0.40
def EXTENDED_PRICE_THRESHOLD_PCT : ℚ := 15.0

/-- Scorer.score: `base += ns * weight` over the nine signals
(the input function gives each signal's unrounded normalized_score). -/
def baseScore (signals : SigName → ℚ) : ℚ :=
  (sigNames.map (fun n => signals n * SIGNAL_WEIGHTS n)).sum

/-- Scorer.score: one interaction-bonus rule fires when all its listed
signals' ROUNDED scores (`signal_scores[name] = round(ns, 1)`) reach the
rule minimum. -/
def bonusApplies (signals : SigName → ℚ) (b : InteractionBonus) : Prop :=
  ∀ s ∈ b.signals, b.min_score ≤ pyRound 1 (signals s)

instance (signals : SigName → ℚ) (b : InteractionBonus) :
    Decidable (bonusApplies signals b) := by
  unfold bonusApplies; infer_instance

def bonusMult (signals : SigName → ℚ) : ℚ :=
  ((INTERACTION_BONUSES.filter (fun b => decide (bonusApplies signals b))).map
    InteractionBonus.bonus).sum

def penaltyMult (price_change_7d : ℚ) : ℚ :=
  if price_change_7d > EXTENDED_PRICE_THRESHOLD_PCT then EXTENDED_PRICE_PENALTY else 0

/-- Scorer.score: `final = clamp(base * (1 + bonus_mult) * (1 - penalty_mult), 0, 100)`. -/
def finalScore (signals : SigName → ℚ) (price_change_7d : ℚ) : ℚ :=
  clamp (baseScore signals * (1 + bonusMult signals) * (1 - penaltyMult price_change_7d)) 0 100

structure ScoreResult where
  composite_score : ℚ
  classification : String
  base_score : ℚ
  signal_scores : SigName → ℚ
  bonuses_applied : List String
  penalties_applied : List String
  bonus_total : ℚ
  penalty_total : ℚ

/-- Scorer.score (the returned dict; the store_score side effect is external).
The Python penalty label embeds the formatted price change; here a fixed tag. -/
def Scorer.score (signals : SigName → ℚ) (price_change_7d : ℚ) : ScoreResult :=
  { composite_score := pyRound 1 (finalScore signals price_change_7d)
    classification := classifyScore (finalScore signals price_change_7d)
    base_score := pyRound 1 (baseScore signals)
    signal_scores := fun n => pyRound 1 (signals n)
    bonuses_applied :=
      (INTERACTION_BONUSES.filter (fun b => decide (bonusApplies signals b))).map
        InteractionBonus.name
    penalties_applied :=
      if price_change_7d > EXTENDED_PRICE_THRESHOLD_PCT then ["extended"] else []
    bonus_total := pyRound 1 (bonusMult signals * 100)
    penalty_total := pyRound 1 (penaltyMult price_change_7d * 100) }

/-- Example input for C1: one signal at 51, the rest at 0
(base = 0.18 * 51 = 9.18, no bonuses, no penalty). -/
def c1Scores : SigName → ℚ := fun n =>
  match n with
  | .oi_surge => 51
  | _ => 0

/-- Example input for C1's witness: all nine signals at 50. -/
def allFifty : SigName → ℚ := fun _ => 50

/-! ### Trade records and the monitor tick
(src/core/database.py add_trade, src/core/scanner.py _check_trade) -/

/-- One row of the active_trades table.  The Python metadata JSON dict is
modelled by its only used entry, last_status_hour (absent = -1, the
default of `meta.get("last_status_hour", -1)`). -/
structure Trade where
  entry_price : ℚ
  position_size_usd : ℚ
  stop_loss_pct : ℚ
  current_stop_price : ℚ
  entry_timestamp : ℚ
  tp1_hit : Bool
  tp2_hit : Bool
  tp3_hit : Bool
  tp4_hit : Bool
  remaining_fraction : ℚ
  realized_pnl : ℚ
  last_notified_stop_pct : ℚ
  last_score : ℚ
  last_status_hour : ℤ
deriving Repr

/-- Database.add_trade: the inserted row. -/
def Database.addTrade (entry_price position_size_usd stop_loss_pct now : ℚ) : Trade :=
  { entry_price := entry_price
    position_size_usd := position_size_usd
    stop_loss_pct := stop_loss_pct
    current_stop_price := entry_price * (1 - stop_loss_pct / 100)
    entry_timestamp := now
    tp1_hit := false
    tp2_hit := false
    tp3_hit := false
    tp4_hit := false
    remaining_fraction := 1
    realized_pnl := 0
    last_notified_stop_pct := 0
    last_score := 0
    last_status_hour := -1 }

structure TPLevel where
  level : ℕ
  pct : Option ℚ
  sell_fraction : ℚ

def TAKE_PROFIT_LEVELS : List TPLevel :=
  [⟨1, some 15, 0.25⟩, ⟨2, some 30, 0.25⟩, ⟨3, some 50, 0.25⟩, ⟨4, none, 0.25⟩]

structure TrailRung where
  price_move_pct : ℚ
  stop_at_pct : ℚ

def STOP_LOSS_TRAIL : List TrailRung :=
  [⟨5, 0⟩, ⟨10, 5⟩, ⟨15, 10⟩, ⟨25, 18⟩, ⟨40, 30⟩, ⟨60, 45⟩]

/-- The Python f-string key `tp{level}_hit`, read. -/
def Trade.tpHitL (t : Trade) (l : ℕ) : Bool :=
  if l = 1 then t.tp1_hit else if l = 2 then t.tp2_hit
  else if l = 3 then t.tp3_hit else if l = 4 then t.tp4_hit else false

/-- The Python f-string key `tp{level}_hit`, written to 1. -/
def Trade.setTpL (t : Trade) (l : ℕ) : Trade :=
  if l = 1 then { t with tp1_hit := true } else if l = 2 then { t with tp2_hit := true }
  else if l = 3 then { t with tp3_hit := true } else if l = 4 then { t with tp4_hit := true }
  else t

/-- One iteration of the take-profit loop of Scanner._check_trade.  `rem0` is
the Python local `rem`, read once before the loop and never reassigned, so
every firing computes `nr = rem0 - sell_fraction` from the same base value;
the database row receives `max(0, nr)` while realized_pnl accumulates
through the trade dict. -/
def tpFire (ps pcp rem0 : ℚ) (t : Trade) (tp : TPLevel) : Trade :=
  match tp.pct with
  | none => t
  | some tpct =>
    if t.tpHitL tp.level then t
    else if pcp ≥ tpct then
      let chunk := tp.sell_fraction * ps * (pcp / 100)
      let nr := rem0 - tp.sell_fraction
      { t.setTpL tp.level with
        remaining_fraction := max 0 nr
        realized_pnl := t.realized_pnl + chunk }
    else t

def tpLoop (ps pcp rem0 : ℚ) (t : Trade) : Trade :=
  TAKE_PROFIT_LEVELS.foldl (tpFire ps pcp rem0) t

/-- One iteration of the stop-trail scan: state is `(nsp, ssp)`. -/
def trailScanF (ep pcp : ℚ) (q : ℚ × ℚ) (tr : TrailRung) : ℚ × ℚ :=
  if pcp ≥ tr.price_move_pct ∧ tr.stop_at_pct > q.1 then
    (tr.stop_at_pct, ep * (1 + tr.stop_at_pct / 100))
  else q

/-- The stop-trail block of Scanner._check_trade (ratchet only when the
scanned nsp exceeds the stored last_notified_stop_pct). -/
def trailStep (ep pcp : ℚ) (t : Trade) : Trade :=
  let r := STOP_LOSS_TRAIL.foldl (trailScanF ep pcp)
    (t.last_notified_stop_pct, t.current_stop_price)
  if r.1 > t.last_notified_stop_pct then
    { t with current_stop_price := r.2, last_notified_stop_pct := r.1 }
  else t

inductive TickResult where
  | closed (reason : String)
  | active (t : Trade)

/-- External observations of one monitor tick: the live price
(None on lookup failure), the latest persisted composite score for the
symbol, and the current wall-clock time. -/
structure TickInput where
  live_price : Option ℚ
  latest_score : Option ℚ
  now : ℚ

/-- Scanner._check_trade: one monitor tick over one active trade.
The alert-handler calls are external side effects; `closed` marks the
database close_trade transitions (the trade leaves active_trades). -/
def Scanner.checkTrade (trade : Trade) (inp : TickInput) : TickResult :=
  if trade.remaining_fraction ≤ 0 then .closed "fully_exited"
  else
    match inp.live_price with
    | none => .active trade
    | some cp =>
      if cp = 0 then .active trade
      else
        let ep := trade.entry_price
        let pcp := ((cp - ep) / ep) * 100
        if cp ≤ trade.current_stop_price then .closed "stop_loss"
        else
          let t1 := tpLoop trade.position_size_usd pcp trade.remaining_fraction trade
          let t2 := trailStep ep pcp t1
          let t3 := match inp.latest_score with
            | none => t2
            | some sc => { t2 with last_score := sc }
          let ch := pyInt ((inp.now - trade.entry_timestamp) / 3600)
          let t4 := if ch > t3.last_status_hour ∧ ch > 0 then
              { t3 with last_status_hour := ch }
            else t3
          .active t4

/-- A sequence of monitor ticks; `none` once the trade is closed. -/
def evolveTrade (t : Trade) : List TickInput → Option Trade
  | [] => some t
  | i :: rest =>
    match Scanner.checkTrade t i with
    | .closed _ => none
    | .active t2 => evolveTrade t2 rest

/-- What one pass of the take-profit loop preserves and how it can move
remaining_fraction and the hit flags. -/
def TPPres (rem0 : ℚ) (t t2 : Trade) : Prop :=
  t2.entry_price = t.entry_price ∧
  t2.position_size_usd = t.position_size_usd ∧
  t2.stop_loss_pct = t.stop_loss_pct ∧
  t2.current_stop_price = t.current_stop_price ∧
  t2.entry_timestamp = t.entry_timestamp ∧
  t2.last_notified_stop_pct = t.last_notified_stop_pct ∧
  t2.last_score = t.last_score ∧
  t2.last_status_hour = t.last_status_hour ∧
  (t2.remaining_fraction = t.remaining_fraction ∨
    t2.remaining_fraction = max 0 (rem0 - 1/4)) ∧
  (∀ l, t.tpHitL l = true → t2.tpHitL l = true)

/-- The inductive invariant of an active trade record. -/
def TradeInv (t : Trade) : Prop :=
  0 < t.entry_price ∧
  0 ≤ t.remaining_fraction ∧ t.remaining_fraction ≤ 1 ∧
  0 ≤ t.last_notified_stop_pct ∧
  t.current_stop_price ≤ t.entry_price * (1 + t.last_notified_stop_pct / 100)

/-! ### Levels calculator stop-loss (src/core/levels.py _calc_stop) -/

/-- One OHLCV candle `[timestamp, open, high, low, close, volume]`. -/
structure Candle where
  t0 : ℚ
  op : ℚ
  hi : ℚ
  lo : ℚ
  cl : ℚ
  vol : ℚ

def MIN_STOP_PCT : ℚ := 2.5
def MAX_STOP_PCT : ℚ := 15.0
def MIN_TP1_PCT : ℚ := 5.0

/-- A stop candidate: (method, stop price, stop pct) as in the Python tuples. -/
structure StopCand where
  method : String
  sprice : ℚ
  spct : ℚ

/-- Python dict insertion-order update for _bid_cluster buckets
(key, price-sum accumulator `ps`, value accumulator `v`; the unused counter
`c` is omitted). -/
def bucketUpd (buckets : List (ℤ × ℚ × ℚ)) (k : ℤ) (ps v : ℚ) : List (ℤ × ℚ × ℚ) :=
  if buckets.any (fun b => b.1 == k) then
    buckets.map (fun b => if b.1 = k then (b.1, b.2.1 + ps, b.2.2 + v) else b)
  else buckets ++ [(k, ps, v)]

/-- LevelsCalculator._bid_cluster: densest bid-value bucket within
`depth_pct` below price; returns (cluster price, cluster value).
Python `max` over dict keys keeps the first maximum (insertion order). -/
def bidCluster (bids : List (ℚ × ℚ)) (price depth_pct : ℚ) : Option (ℚ × ℚ) :=
  let floorP := price * (1 - depth_pct / 100)
  let bs := price * 0.005
  let buckets := bids.foldl
    (fun acc (b : ℚ × ℚ) =>
      if b.1 < floorP ∨ b.1 ≥ price then acc
      else
        let v := b.1 * b.2
        bucketUpd acc (pyInt (b.1 / bs)) (b.1 * v) v)
    []
  match buckets with
  | [] => none
  | b :: rest =>
    let best := rest.foldl (fun m x => if x.2.2 > m.2.2 then x else m) b
    some (if best.2.2 > 0 then best.2.1 / best.2.2 else 0, best.2.2)

/-- _calc_stop method 1: the ATR candidate (score-tiered multiplier). -/
def atrCandidate (price atr score : ℚ) : StopCand :=
  let mult : ℚ := if score ≥ 78 then 1.5 else if score ≥ 62 then 2.0 else 2.5
  let atr_stop := price - atr * mult
  ⟨"atr", atr_stop, ((price - atr_stop) / price) * 100⟩

/-- _calc_stop method 2: the swing-low candidate (before the band guard). -/
def swingCandidate (price : ℚ) (candles : List Candle) : Option StopCand :=
  if candles.length ≥ 12 then
    let lookback := min 24 candles.length
    let lows := ((candles.drop (candles.length - lookback)).filter
      (fun c => decide (0 < c.lo))).map Candle.lo
    match lows.min? with
    | some sl =>
      let swing_stop := sl * 0.995
      some ⟨"swing_low", swing_stop, ((price - swing_stop) / price) * 100⟩
    | none => none
  else none

/-- _calc_stop method 3: the orderbook-support candidate (before the band
guard). -/
def obCandidate (price : ℚ) (bids : List (ℚ × ℚ)) : Option StopCand :=
  if bids.isEmpty then none
  else
    match bidCluster bids price 10.0 with
    | some sup =>
      let ob_stop := sup.1 * 0.997
      some ⟨"support", ob_stop, ((price - ob_stop) / price) * 100⟩
    | none => none

/-- The insertion guard of _calc_stop for the swing/orderbook candidates:
appended only when the stop pct is inside [MIN_STOP_PCT, MAX_STOP_PCT]. -/
def bandGuard (c : StopCand) : List StopCand :=
  if MIN_STOP_PCT ≤ c.spct ∧ c.spct ≤ MAX_STOP_PCT then [c] else []

def optBand : Option StopCand → List StopCand
  | some c => bandGuard c
  | none => []

/-- The swing-low and orderbook-support entries of the candidates list. -/
def restCands (price : ℚ) (candles : List Candle) (bids : List (ℚ × ℚ)) :
    List StopCand :=
  optBand (swingCandidate price candles) ++ optBand (obCandidate price bids)

/-- The candidates list of _calc_stop: the ATR candidate always, the swing
and orderbook candidates only when inside the band. -/
def stopCandidates (price atr score : ℚ) (candles : List Candle)
    (bids : List (ℚ × ℚ)) : List StopCand :=
  atrCandidate price atr score :: restCands price candles bids

/-- Python `max(valid, key=lambda x: x[1])`: first maximum by stop price. -/
def maxBySPrice (c : StopCand) (cs : List StopCand) : StopCand :=
  cs.foldl (fun m x => if x.sprice > m.sprice then x else m) c

/-- The selection step of _calc_stop: filter to candidates at least 1xATR
below price with stop pct >= MIN_STOP_PCT; tightest (max stop price) wins;
the ATR candidate is the fallback when none are valid. -/
def stopBest (price atr score : ℚ) (candles : List Candle)
    (bids : List (ℚ × ℚ)) : StopCand :=
  let valid := (stopCandidates price atr score candles bids).filter
    (fun c => decide (price - c.sprice ≥ atr * 1.0 ∧ c.spct ≥ MIN_STOP_PCT))
  match valid with
  | [] => atrCandidate price atr score
  | c :: cs => maxBySPrice c cs

/-- The final clamp of _calc_stop into the stop-pct band. -/
def stopFinal (price s : ℚ) : ℚ :=
  max (price * (1 - MAX_STOP_PCT / 100)) (min (price * (1 - MIN_STOP_PCT / 100)) s)

structure StopResult where
  sprice : ℚ
  spct : ℚ
  method : String
  atr_distance : ℚ

/-- LevelsCalculator._calc_stop (the fields of the returned dict used
downstream; the methods_considered strings and the raw per-method debug
fields are reporting only). -/
def LevelsCalculator.calcStop (price atr score : ℚ) (candles : List Candle)
    (bids : List (ℚ × ℚ)) : StopResult :=
  let best := stopBest price atr score candles bids
  let fp := stopFinal price best.sprice
  let fpct := ((price - fp) / price) * 100
  { sprice := pyRound 8 fp
    spct := pyRound 2 fpct
    method := best.method
    atr_distance := if 0 < atr then pyRound 1 ((price - fp) / atr) else 0 }

/-- Modelled from the spec's words (refinement target for C5): the
candidates are filtered to those at least 1xATR below price AND whose stop
percentage lies within [2.5, 15]; among valid candidates the tightest
(maximum stop price) is chosen; if no candidate is valid the ATR stop is the
forced fallback. -/
def specStopSelect (price atr : ℚ) (fallback : StopCand)
    (cands : List StopCand) : StopCand :=
  let valid := cands.filter
    (fun c => decide (price - c.sprice ≥ atr ∧
      MIN_STOP_PCT ≤ c.spct ∧ c.spct ≤ MAX_STOP_PCT))
  match valid with
  | [] => fallback
  | c :: cs => maxBySPrice c cs

/-! ### Database trade CRUD (src/core/database.py) -/

/-- One trade_history row (the realized_pnl column receives total_pnl). -/
structure TradeHistRow where
  symbol : String
  entry_price : ℚ
  exit_price : ℚ
  position_size_usd : ℚ
  realized_pnl : ℚ
  entry_timestamp : ℚ
  exit_timestamp : ℚ
  duration_hours : ℚ
  max_gain_pct : ℚ
  exit_reason : String

/-- The dict returned by Database.close_trade. -/
structure CloseResult where
  symbol : String
  entry_price : ℚ
  exit_price : ℚ
  position_size_usd : ℚ
  total_pnl : ℚ
  total_pnl_pct : ℚ
  duration_hours : ℚ
  exit_reason : String

/-- The two trade tables (active_trades has a UNIQUE symbol key, modelled
as an association list; trade_history is append-only). -/
structure DBState where
  active_trades : List (String × Trade)
  trade_history : List TradeHistRow

/-- Keyed update with Python dict semantics (replace in place, else append;
also INSERT OR REPLACE on a unique key). -/
def assocReplace {β : Type} (l : List (String × β)) (k : String) (v : β) :
    List (String × β) :=
  if l.any (fun p => p.1 == k) then l.map (fun p => if p.1 = k then (k, v) else p)
  else l ++ [(k, v)]

/-- Database.add_trade acting on the database state. -/
def Database.addTradeDB (db : DBState) (symbol : String) (ep ps sl now : ℚ) : DBState :=
  { db with active_trades :=
      assocReplace db.active_trades symbol (Database.addTrade ep ps sl now) }

/-- Database.get_active_trade. -/
def Database.getActiveTrade (db : DBState) (symbol : String) : Option Trade :=
  (db.active_trades.find? (fun p => p.1 == symbol)).map Prod.snd

/-- Database.close_trade: computes total_pnl, appends one history row,
deletes the active row; None when no active trade exists. -/
def Database.closeTrade (db : DBState) (symbol : String) (exit_price now : ℚ)
    (exit_reason : String) : Option CloseResult × DBState :=
  match Database.getActiveTrade db symbol with
  | none => (none, db)
  | some t =>
    let duration_hours := (now - t.entry_timestamp) / 3600
    let pnl_remaining := t.remaining_fraction * t.position_size_usd *
      (exit_price - t.entry_price) / t.entry_price
    let total_pnl := t.realized_pnl + pnl_remaining
    let max_gain := (exit_price - t.entry_price) / t.entry_price * 100
    let row : TradeHistRow := ⟨symbol, t.entry_price, exit_price,
      t.position_size_usd, total_pnl, t.entry_timestamp, now, duration_hours,
      max_gain, exit_reason⟩
    (some ⟨symbol, t.entry_price, exit_price, t.position_size_usd, total_pnl,
      (total_pnl / t.position_size_usd) * 100, duration_hours, exit_reason⟩,
     { active_trades := db.active_trades.filter (fun p => decide (p.1 ≠ symbol)),
       trade_history := db.trade_history ++ [row] })

/-! ### Events, detect_events and alert dispatch
(src/core/scorer.py detect_events, src/core/scanner.py run_once /
_send_alerts, src/core/database.py get_previous_score) -/

inductive Event where
  | scoreJump (previous_score current_score delta : ℚ)
  | upgrade (from_class to_class : String) (score : ℚ)
  | ignition (price_move_pct score : ℚ)
deriving DecidableEq, Repr

/-- One scanned token's result as seen by the alert stage. -/
structure ScanResult where
  composite_score : ℚ
  classification : String
  events : List Event

/-- Stable insertion used to model Python list sorting. -/
def insertBy {α : Type} (le : α → α → Bool) (a : α) : List α → List α
  | [] => [a]
  | b :: bs => if le a b then a :: b :: bs else b :: insertBy le a bs

def sortBy {α : Type} (le : α → α → Bool) (l : List α) : List α :=
  l.foldr (insertBy le) []

/-- run_once sorts the above-threshold results descending by score. -/
def sortResults (results : List ScanResult) : List ScanResult :=
  sortBy (fun a b => decide (b.composite_score ≤ a.composite_score)) results

/-- Scanner._send_alerts: the signal alerts (CRITICAL/HIGH_ALERT/WATCHLIST
results) and the dispatched events (every event of every result passed in). -/
def Scanner.sendAlerts (results : List ScanResult) : List ScanResult × List Event :=
  (results.filter (fun r =>
      decide (r.classification ∈ ["CRITICAL", "HIGH_ALERT", "WATCHLIST"])),
   (results.map ScanResult.events).join)

/-- The dispatch stage of Scanner.run_once: only results with
composite_score >= alert_threshold are collected, sorted descending, and
handed to _send_alerts. -/
def Scanner.runOnceDispatch (threshold : ℚ) (scanned : List ScanResult) :
    List ScanResult × List Event :=
  Scanner.sendAlerts (sortResults
    (scanned.filter (fun r => decide (threshold ≤ r.composite_score))))

/-- One score_history row. -/
structure ScoreRow where
  timestamp : ℚ
  symbol : String
  composite_score : ℚ
  classification : String

/-- One ticker snapshot as read back from the snapshot log
(missing fields read as 0). -/
structure TickerSnap where
  last : ℚ
  quoteVolume : ℚ
  volume : ℚ

/-- Database.get_previous_score: the two most recent rows for the symbol
(timestamp descending); the second one if it exists, else None. -/
def Database.getPreviousScore (hist : List ScoreRow) (symbol : String) :
    Option ScoreRow :=
  let rows := (sortBy (fun a b => decide (b.timestamp ≤ a.timestamp))
    (hist.filter (fun r => r.symbol == symbol))).take 2
  match rows with
  | [_, r] => some r
  | _ => none

def eventOrder : List String :=
  ["NONE", "MONITOR", "WATCHLIST", "HIGH_ALERT", "CRITICAL"]

/-- Scorer.detect_events: SCORE_JUMP on delta >= 15, UPGRADE on a strict
classification rank increase, IGNITION when the first positive-price ticker
snapshot in the 6h window shows a rise >= 5 percent and the current score is
>= 48; empty when no previous persisted score exists. -/
def Scorer.detectEvents (scoreHist : List ScoreRow) (tickHist : List TickerSnap)
    (symbol : String) (cs : ℚ) (cc : String) (current_price : ℚ) : List Event :=
  match Database.getPreviousScore scoreHist symbol with
  | none => []
  | some prev =>
    let ps := prev.composite_score
    let pc := prev.classification
    let delta := cs - ps
    let e1 : List Event :=
      if delta ≥ 15 then [.scoreJump ps cs (pyRound 1 delta)] else []
    let e2 : List Event :=
      match eventOrder.findIdx? (fun s => s == cc),
            eventOrder.findIdx? (fun s => s == pc) with
      | some ci, some pj => if pj < ci then [.upgrade pc cc cs] else []
      | _, _ => []
    let e3 : List Event :=
      if 0 < current_price then
        match tickHist.find? (fun h => decide (0 < h.last)) with
        | some hsnap =>
          let pm := ((current_price - hsnap.last) / hsnap.last) * 100
          if pm ≥ 5.0 ∧ cs ≥ 48 then [.ignition (pyRound 1 pm) cs] else []
        | none => []
      else []
    e1 ++ e2 ++ e3

/-! ### Signal engine (src/core/signals.py) -/

/-- One signal result.  The Python metadata dict is modelled by its `reason`
entry (present exactly on the degraded early-exit paths); the descriptive
metadata numbers are reporting only and are not modelled. -/
structure Signal (α : Type) where
  raw_value : α
  normalized_score : α
  reason : Option String

/-- A live ticker in the data bundle (missing fields read as 0, matching
the Python falsy checks on `t.get(...)`). -/
structure Ticker where
  last : ℚ
  quoteVolume : ℚ
  volume : ℚ

structure OrderBook where
  bids : List (ℚ × ℚ)
  asks : List (ℚ × ℚ)

/-- The per-token data bundle: exchange-keyed association lists in the
Python dict iteration order. -/
structure DataBundle where
  ohlcv : List (String × List Candle)
  tickers : List (String × Ticker)
  open_interest : List (String × ℚ)
  funding_rates : List (String × ℚ)
  orderbooks : List (String × OrderBook)
  long_short_ratios : List (String × ℚ)

/-- An open_interest snapshot row from the store (timestamp, exchange,
open_interest value; `h.get("open_interest", 0)` reads 0 when missing). -/
structure OISnap where
  ts : ℚ
  ex : String
  open_interest : ℚ

/-- A funding_rate snapshot; the Python code distinguishes a missing key
(`h.get("funding_rate") is None`) from the value 0. -/
structure FundingSnap where
  funding_rate : Option ℚ

/-- A long_short_ratio snapshot (`hist[-1].get("long_short_ratio")`,
falsy 0 treated as missing). -/
structure LSSnap where
  long_short_ratio : ℚ

/-- numpy mean: sum / length (callers guard nonemptiness). -/
def npMean (l : List ℚ) : ℚ := l.sum / l.length

/-- numpy median: middle of the sorted values, or the average of the two
middle values for even length. -/
def npMedian (l : List ℚ) : ℚ :=
  let s := sortBy (fun a b : ℚ => decide (a ≤ b)) l
  if l.length % 2 = 1 then s.getD (l.length / 2) 0
  else (s.getD (l.length / 2 - 1) 0 + s.getD (l.length / 2) 0) / 2

/-- SignalEngine._get_current_price: first ticker with a positive `last`,
else the last close of the first nonempty candle list, else 0. -/
def getCurrentPrice (data : DataBundle) : ℚ :=
  match (data.tickers.map Prod.snd).find? (fun t => decide (0 < t.last)) with
  | some t => t.last
  | none =>
    match (data.ohlcv.map Prod.snd).find? (fun c => !c.isEmpty) with
    | some c => ((c.getLast?).map Candle.cl).getD 0
    | none => 0

/-- SignalEngine._get_price_change: per exchange try the `hours`-back close
(or the earliest close), else fall back to the first positive ticker
snapshot within the window; 0 when everything fails. -/
def getPriceChange (data : DataBundle) (hours : ℕ) (tickHist : List TickerSnap) : ℚ :=
  let cur := getCurrentPrice data
  if cur = 0 then 0
  else
    match data.ohlcv.findSome? (fun pr =>
      let candles := pr.2
      if !candles.isEmpty ∧ candles.length ≥ hours then
        let old := (candles.getD (candles.length - hours) ⟨0, 0, 0, 0, 0, 0⟩).cl
        if 0 < old then some (((cur - old) / old) * 100) else none
      else if !candles.isEmpty ∧ candles.length > 1 then
        let old := (candles.headD ⟨0, 0, 0, 0, 0, 0⟩).cl
        if 0 < old then some (((cur - old) / old) * 100) else none
      else none) with
    | some r => r
    | none =>
      match tickHist.findSome? (fun h =>
        if 0 < h.last then some (((cur - h.last) / h.last) * 100) else none) with
      | some r => r
      | none => 0

/-- SignalEngine._compute_oi_surge.  `histOI` is the 72h open_interest
snapshot window (ascending by timestamp, as the store returns it);
`tickHist` the ticker window used by the price-change fallback. -/
def computeOISurge (data : DataBundle) (histOI : List OISnap)
    (tickHist : List TickerSnap) : Signal ℚ :=
  let current_oi := data.open_interest.filter (fun p => decide (0 < p.2))
  if current_oi.isEmpty then ⟨0, 0, some "no OI"⟩
  else
    let total_current := (current_oi.map Prod.snd).sum
    if histOI.isEmpty then ⟨0, 0, some "no hist OI"⟩
    else
      let earliest := ((histOI.map OISnap.ts).min?).getD 0
      let oldest_oi := histOI.foldl
        (fun acc h =>
          if h.ts ≤ earliest + 3600 ∧ 0 < h.open_interest then
            assocReplace acc h.ex h.open_interest
          else acc)
        []
      if oldest_oi.isEmpty then ⟨0, 0, some "no valid hist OI"⟩
      else
        let total_old := (oldest_oi.map Prod.snd).sum
        if total_old = 0 then ⟨0, 0, some "zero hist OI"⟩
        else
          let oi_pct := ((total_current - total_old) / total_old) * 100
          let price_pct := getPriceChange data 72 tickHist
          let pf := max 0.2 (1.0 - |price_pct| / 20.0)
          let effective := oi_pct * pf
          let norm := piecewiseLerp effective
            [(-10, 0), (0, 10), (5, 25), (10, 45), (15, 58),
             (20, 68), (30, 80), (40, 90), (60, 100)]
          ⟨pyRound 2 oi_pct, pyRound 1 (clamp norm 0 100), none⟩

/-- SignalEngine._compute_funding_rate. -/
def computeFundingRate (data : DataBundle) (fundHist : List FundingSnap) : Signal ℚ :=
  if data.funding_rates.isEmpty then ⟨0, 0, some "no funding"⟩
  else
    let current := npMean (data.funding_rates.map Prod.snd)
    let total := (fundHist.filter (fun h => h.funding_rate.isSome)).length
    let neg := (fundHist.filter (fun h =>
      match h.funding_rate with
      | some r => decide (r < -0.0001)
      | none => false)).length
    let persist := safeDivide neg (max total 1) 0
    let mag :=
      if current ≥ 0 then piecewiseLerp (-current) [(-0.001, 0), (0, 5)]
      else piecewiseLerp |current|
        [(0, 5), (0.0003, 20), (0.0005, 30), (0.001, 45),
         (0.0015, 55), (0.002, 65), (0.003, 78), (0.005, 90), (0.01, 100)]
    let per := piecewiseLerp persist
      [(0, 0), (0.3, 20), (0.5, 45), (0.7, 70), (0.85, 90), (1.0, 100)]
    let norm := mag * 0.55 + per * 0.45
    ⟨pyRound 6 current, pyRound 1 (clamp norm 0 100), none⟩

/-- SignalEngine._compute_liquidation_leverage. -/
def computeLiquidationLeverage (data : DataBundle) : Signal ℚ :=
  let price := getCurrentPrice data
  if price ≤ 0 then ⟨0, 0, some "no price"⟩
  else
    let total_oi := ((data.open_interest.filter (fun p => decide (0 < p.2))).map
      Prod.snd).sum
    if total_oi = 0 then ⟨0, 0, some "no OI"⟩
    else
      let ls := data.long_short_ratios
      let sf := if ls.isEmpty then 0.5
        else safeDivide 1.0 (1.0 + npMean (ls.map Prod.snd)) 0.5
      let short_oi := total_oi * sf
      let liq15 := short_oi * min (0.15 / (1.0 / 8.0)) 0.8
      let ask_res := (data.orderbooks.map (fun pr =>
        ((pr.2.asks.filter (fun q => decide (q.1 ≤ price * 1.15))).map
          (fun q => q.1 * q.2)).sum)).sum
      let ratio := if 0 < ask_res then safeDivide liq15 ask_res 3.0 else 3.0
      let norm := piecewiseLerp ratio
        [(0.5, 0), (1, 10), (2, 35), (3, 55), (5, 75), (8, 90), (12, 100)]
      ⟨pyRound 2 ratio, pyRound 1 (clamp norm 0 100), none⟩

/-- The Python volume chain `t.get("quoteVolume") or t.get("volume", 0)`. -/
def Ticker.volChain (t : Ticker) : ℚ :=
  if t.quoteVolume ≠ 0 then t.quoteVolume else t.volume

def TickerSnap.volChain (h : TickerSnap) : ℚ :=
  if h.quoteVolume ≠ 0 then h.quoteVolume else h.volume

/-- SignalEngine._single_exchange_volume. -/
def singleExchangeVolume (volumes : List (String × ℚ))
    (tickHist : List TickerSnap) : Signal ℚ :=
  let cur := (volumes.headD ("", 0)).2
  if tickHist.length < 5 then ⟨0, 0, some "no hist"⟩
  else
    let hvols := (tickHist.filter (fun h => decide (0 < h.volChain))).map
      TickerSnap.volChain
    if hvols.isEmpty then ⟨0, 0, some "no hist vol"⟩
    else
      let avg := npMean hvols
      if avg = 0 then ⟨0, 0, some "zero avg"⟩
      else
        let ratio := cur / avg
        let norm := piecewiseLerp ratio
          [(0.8, 0), (1, 5), (1.5, 30), (2, 50), (3, 70), (5, 90), (8, 100)]
        ⟨pyRound 2 ratio, pyRound 1 (clamp norm 0 100), none⟩

/-- SignalEngine._compute_cross_exchange_volume. -/
def computeCrossExchangeVolume (data : DataBundle)
    (tickHist : List TickerSnap) : Signal ℚ :=
  let vols := (data.tickers.map (fun pr => (pr.1, pr.2.volChain))).filter
    (fun pr => decide (0 < pr.2))
  if vols.length < 2 then
    if vols.length = 1 then singleExchangeVolume vols tickHist
    else ⟨0, 0, some "need 2+ exchanges"⟩
  else
    let vals := vols.map Prod.snd
    let med := npMedian vals
    if med ≤ 0 then ⟨0, 0, some "zero median"⟩
    else
      let dv := (vals.max?.getD 0) / med
      let norm := piecewiseLerp dv
        [(1, 0), (1.3, 18), (1.5, 35), (2, 55), (3, 75), (4, 88), (6, 100)]
      ⟨pyRound 2 dv, pyRound 1 (clamp norm 0 100), none⟩

/-- SignalEngine._compute_depth_imbalance. -/
def computeDepthImbalance (data : DataBundle) : Signal ℚ :=
  let bid_v := (data.orderbooks.map (fun pr =>
    (pr.2.bids.map (fun q => q.1 * q.2)).sum)).sum
  let ask_v := (data.orderbooks.map (fun pr =>
    (pr.2.asks.map (fun q => q.1 * q.2)).sum)).sum
  if ask_v = 0 then ⟨0, 0, some "no asks"⟩
  else
    let ratio := safeDivide bid_v ask_v 1.0
    let norm := if ratio ≥ 1.0 then
        piecewiseLerp ratio
          [(1, 0), (1.15, 15), (1.3, 30), (1.5, 50), (1.8, 65),
           (2, 75), (2.5, 88), (3, 95), (4, 100)]
      else 0
    ⟨pyRound 3 ratio, pyRound 1 (clamp norm 0 100), none⟩

/-- SignalEngine._compute_volume_price_decouple. -/
def computeVolumePriceDecouple (data : DataBundle) : Signal ℚ :=
  let candles := ((data.ohlcv.map Prod.snd).find?
    (fun c => decide (c.length ≥ 20))).getD []
  if candles.length < 20 then ⟨0, 0, some "no OHLCV"⟩
  else
    let pair :=
      if candles.length ≥ 48 then
        (candles.drop (candles.length - 24), (candles.drop (candles.length - 48)).take 24)
      else
        let h := candles.length / 2
        (candles.drop h, candles.take h)
    let recent := pair.1
    let prev := pair.2
    let rv := ((recent.filter (fun c => decide (c.vol ≠ 0))).map Candle.vol).sum
    let pv := ((prev.filter (fun c => decide (c.vol ≠ 0))).map Candle.vol).sum
    if pv = 0 then ⟨0, 0, some "zero prev vol"⟩
    else
      let vc := (rv - pv) / pv * 100
      let o := (recent.headD ⟨0, 0, 0, 0, 0, 0⟩).op
      let pc := if o ≠ 0 then
          |((recent.getLast?.getD ⟨0, 0, 0, 0, 0, 0⟩).cl - o) / o * 100|
        else 0
      let raw := if 0 < vc then max 0 (vc * max 0.15 (1.0 - pc / 12.0)) else 0
      let norm := piecewiseLerp raw
        [(0, 0), (10, 15), (20, 30), (35, 50), (50, 63),
         (75, 78), (100, 88), (150, 95), (200, 100)]
      ⟨pyRound 2 raw, pyRound 1 (clamp norm 0 100), none⟩

/-- numpy mean over the reals. -/
noncomputable def rMean (l : List ℝ) : ℝ := l.sum / l.length

/-- numpy population standard deviation (the square root forces the real
numbers; this is the one irrational computation of the signal engine). -/
noncomputable def rStd (l : List ℝ) : ℝ :=
  Real.sqrt (((l.map (fun x => (x - rMean l) ^ 2)).sum) / l.length)

/-- SignalEngine._compute_volatility_compression: Bollinger-band-width
percentile over 20-candle windows (the ATR metadata numbers are descriptive
only and not modelled). -/
noncomputable def computeVolatilityCompression (data : DataBundle) : Signal ℝ :=
  let candles := data.ohlcv.foldl
    (fun best pr => if pr.2.length > best.length then pr.2 else best) []
  if candles.length < 30 then ⟨0, 0, some "no data"⟩
  else
    let closes : List ℝ := candles.map (fun c => (c.cl : ℝ))
    let bbw : List ℝ := (List.range (closes.length - 20)).filterMap (fun j =>
      let w := (closes.drop j).take 20
      let s := rMean w
      let st := rStd w
      if 0 < s then some ((2 * st) / s) else none)
    if bbw.length < 5 then ⟨0, 0, some "no BB data"⟩
    else
      let cur := (bbw.getLast?).getD 0
      let pctl := ((bbw.filter (fun w => decide (cur < w))).length : ℝ) /
        (bbw.length : ℝ) * 100
      let norm := piecewiseLerp pctl
        [(0, 0), (30, 10), (50, 25), (65, 42), (75, 58),
         (85, 75), (92, 88), (97, 95), (100, 100)]
      ⟨pyRound 6 cur, pyRound 1 (clamp norm 0 100), none⟩

/-- SignalEngine._compute_long_short_ratio. -/
def computeLongShortRatio (data : DataBundle) (lsHist : List LSSnap) : Signal ℚ :=
  let ls : List ℚ :=
    if data.long_short_ratios.isEmpty then
      match lsHist.getLast? with
      | some h => if h.long_short_ratio ≠ 0 then [h.long_short_ratio] else []
      | none => []
    else data.long_short_ratios.map Prod.snd
  if ls.isEmpty then ⟨0, 0, some "no L/S"⟩
  else
    let avg := npMean ls
    let norm :=
      if avg ≥ 1.0 then piecewiseLerp avg [(1.0, 8), (1.1, 3), (1.3, 0)]
      else piecewiseLerp avg
        [(0.5, 100), (0.6, 90), (0.7, 75), (0.8, 55),
         (0.85, 42), (0.9, 30), (0.95, 18), (1.0, 8)]
    ⟨pyRound 4 avg, pyRound 1 (clamp norm 0 100), none⟩

/-- SignalEngine._compute_futures_spot_divergence (the current total volume
reads quoteVolume only; the historical fallback uses the or-chain). -/
def computeFuturesSpotDivergence (data : DataBundle)
    (tickHist : List TickerSnap) : Signal ℚ :=
  if data.tickers.isEmpty then ⟨0, 0, some "no tickers"⟩
  else
    let total_vol := (data.tickers.map (fun pr => pr.2.quoteVolume)).sum
    if tickHist.length < 5 then ⟨0, 0, some "no hist"⟩
    else
      let hvols := (tickHist.filter (fun h => decide (0 < h.volChain))).map
        TickerSnap.volChain
      if hvols.isEmpty then ⟨0, 0, some "no hist vol"⟩
      else
        let avg := npMean hvols
        if avg = 0 then ⟨0, 0, some "zero avg"⟩
        else
          let ratio := total_vol / avg
          let norm := piecewiseLerp ratio
            [(0.5, 0), (1, 5), (1.3, 20), (1.5, 35), (2, 55),
             (2.5, 68), (3, 78), (4, 90), (6, 100)]
          ⟨pyRound 2 ratio, pyRound 1 (clamp norm 0 100), none⟩

/-- Graceful-degradation contract of one signal result: the normalized
score lies in [0,100], and whenever a degradation reason is reported both
the raw value and the normalized score are the neutral 0. -/
def SigOK {α : Type} [LinearOrderedField α] (s : Signal α) : Prop :=
  (0 ≤ s.normalized_score ∧ s.normalized_score ≤ 100) ∧
  (s.reason ≠ none → s.raw_value = 0 ∧ s.normalized_score = 0)

/-- Example bundle for C7's witness: current open interest present, nothing
else. -/
def c7Bundle : DataBundle := ⟨[], [], [("binance", 1000)], [], [], []⟩

/-- Example for C9: a below-threshold result carrying one detected event. -/
def c9Event : Event := .scoreJump 30 47 17

def c9Result : ScanResult := ⟨47, "NONE", [c9Event]⟩

/-- Example input for C2: cascade bonus fires, base = 59.97, final =
59.97 * 1.3 = 77.961, which rounds to 78.0 but classifies below 78. -/
def c2Scores : SigName → ℚ := fun n =>
  match n with
  | .oi_surge => 24.5
  | .funding_rate => 100
  | .liquidation_leverage => 100
  | .cross_exchange_volume => 13
  | .depth_imbalance => 100
  | .volume_price_decouple => 0
  | .volatility_compression => 0
  | .long_short_ratio => 100
  | .futures_spot_divergence => 100

end Pump

namespace Pump

/-! ### Rounding and clamping lemmas -/

theorem le_roundHalfEven {α : Type} [LinearOrderedField α] [FloorRing α] (x : α) :
    ⌊x⌋ ≤ roundHalfEven x := by
  unfold roundHalfEven; split_ifs <;> omega

theorem roundHalfEven_le_ceil {α : Type} [LinearOrderedField α] [FloorRing α] (x : α) :
    roundHalfEven x ≤ ⌈x⌉ := by
  unfold roundHalfEven
  split_ifs with h1 h2 h3
  · exact Int.floor_le_ceil x
  · rw [Int.add_one_le_iff, Int.lt_ceil]
    have := Int.floor_le x
    nlinarith [Int.floor_le x]
  · exact Int.floor_le_ceil x
  · rw [Int.add_one_le_iff, Int.lt_ceil]
    have hx : (1:α)/2 = x - ⌊x⌋ := le_antisymm (not_lt.mp h1) (not_lt.mp h2)
    nlinarith [hx]

theorem roundHalfEven_mono {α : Type} [LinearOrderedField α] [FloorRing α]
    {x y : α} (h : x ≤ y) : roundHalfEven x ≤ roundHalfEven y := by
  rcases lt_or_eq_of_le (Int.floor_mono h) with hf | hf
  · calc roundHalfEven x ≤ ⌈x⌉ := roundHalfEven_le_ceil x
      _ ≤ ⌊x⌋ + 1 := Int.ceil_le_floor_add_one x
      _ ≤ ⌊y⌋ := by omega
      _ ≤ roundHalfEven y := le_roundHalfEven y
  · unfold roundHalfEven
    rw [hf]
    have hxy : x - ⌊y⌋ ≤ y - ⌊y⌋ := by linarith
    split_ifs <;> first | omega | (exfalso; linarith)

theorem pyRound_mono {α : Type} [LinearOrderedField α] [FloorRing α]
    (n : ℕ) {x y : α} (h : x ≤ y) : pyRound n x ≤ pyRound n y := by
  unfold pyRound
  have h10 : (0:α) < 10 ^ n := by positivity
  rw [div_le_div_right h10]
  exact_mod_cast roundHalfEven_mono (by nlinarith)

theorem pyRound_nonneg {α : Type} [LinearOrderedField α] [FloorRing α]
    (n : ℕ) {x : α} (h : 0 ≤ x) : 0 ≤ pyRound n x := by
  unfold pyRound
  have h10 : (0:α) < 10 ^ n := by positivity
  apply div_nonneg ?_ (le_of_lt h10)
  have : (0:ℤ) ≤ ⌊10 ^ n * x⌋ := Int.floor_nonneg.mpr (by positivity)
  exact_mod_cast le_trans this (le_roundHalfEven _)

theorem pyRound_le_hundred {α : Type} [LinearOrderedField α] [FloorRing α]
    (n : ℕ) {x : α} (h : x ≤ 100) : pyRound n x ≤ 100 := by
  unfold pyRound
  have h10 : (0:α) < 10 ^ n := by positivity
  rw [div_le_iff₀ h10]
  have h1 : roundHalfEven (10 ^ n * x) ≤ ⌈10 ^ n * x⌉ := roundHalfEven_le_ceil _
  have h2 : ⌈10 ^ n * x⌉ ≤ ⌈(10:α) ^ n * 100⌉ := Int.ceil_mono (by nlinarith)
  have h3 : ((10:α) ^ n * 100) = (((10 ^ n * 100 : ℤ) : α)) := by push_cast; ring
  have h4 : ⌈(10:α) ^ n * 100⌉ = (10 ^ n * 100 : ℤ) := by rw [h3, Int.ceil_intCast]
  have h5 : roundHalfEven (10 ^ n * x) ≤ (10 ^ n * 100 : ℤ) := by omega
  calc ((roundHalfEven (10 ^ n * x) : ℤ) : α) ≤ ((10 ^ n * 100 : ℤ) : α) := by exact_mod_cast h5
    _ = 100 * 10 ^ n := by push_cast; ring

/-- Every signal's stored normalized score `round(clamp(norm, 0, 100), 1)`
lies in [0, 100]. -/
theorem round_clamp_bound {α : Type} [LinearOrderedField α] [FloorRing α]
    (n : ℕ) (x : α) :
    0 ≤ pyRound n (clamp x 0 100) ∧ pyRound n (clamp x 0 100) ≤ 100 := by
  unfold clamp
  constructor
  · exact pyRound_nonneg n (le_max_left _ _)
  · exact pyRound_le_hundred n (max_le (by norm_num) (min_le_left _ _))

theorem clamp_mono {x y : ℚ} (h : x ≤ y) (a b : ℚ) : clamp x a b ≤ clamp y a b := by
  unfold clamp
  exact max_le_max (le_refl a) (min_le_min (le_refl b) h)

/-- Evaluation helper: round-half-even below the midpoint. -/
theorem roundHalfEven_eq_floor {x : ℚ} {f : ℤ} (h1 : ⌊x⌋ = f) (h2 : x - f < 1/2) :
    roundHalfEven x = f := by
  unfold roundHalfEven
  rw [h1, if_pos h2]

/-- Evaluation helper: round-half-even above the midpoint. -/
theorem roundHalfEven_eq_floor_add_one {x : ℚ} {f : ℤ} (h1 : ⌊x⌋ = f)
    (h2 : 1/2 < x - f) : roundHalfEven x = f + 1 := by
  unfold roundHalfEven
  rw [h1, if_neg (by linarith), if_pos h2]

/-- Evaluation helper: `pyRound n x` when `10^n * x` is an integer. -/
theorem pyRound_eq_self_of_int (n : ℕ) (x : ℚ) (m : ℤ) (h : 10 ^ n * x = (m:ℚ)) :
    pyRound n x = x := by
  unfold pyRound
  rw [h, roundHalfEven_eq_floor (f := m) (by norm_num) (by norm_num)]
  rw [← h]
  field_simp

/-- Evaluation helper: `pyRound n x` rounding up. -/
theorem pyRound_eq_of_up (n : ℕ) (x y : ℚ) (f : ℤ) (h1 : ⌊10 ^ n * x⌋ = f)
    (h2 : 1/2 < 10 ^ n * x - f) (h3 : ((f:ℚ) + 1) / 10 ^ n = y) :
    pyRound n x = y := by
  unfold pyRound
  rw [roundHalfEven_eq_floor_add_one h1 h2, ← h3]
  push_cast
  ring

/-! ### Scorer lemmas (C1, C2) -/

theorem signal_weight_nonneg (n : SigName) : 0 ≤ SIGNAL_WEIGHTS n := by
  cases n <;> norm_num [SIGNAL_WEIGHTS]

theorem baseScore_nonneg (signals : SigName → ℚ) (hs : ∀ n, 0 ≤ signals n) :
    0 ≤ baseScore signals := by
  unfold baseScore
  apply List.sum_nonneg
  intro x hx
  simp only [List.mem_map] at hx
  obtain ⟨n, _, rfl⟩ := hx
  exact mul_nonneg (hs n) (signal_weight_nonneg n)

theorem baseScore_mono {s1 s2 : SigName → ℚ} (h : ∀ n, s1 n ≤ s2 n) :
    baseScore s1 ≤ baseScore s2 := by
  unfold baseScore
  apply List.sum_le_sum
  intro n _
  exact mul_le_mul_of_nonneg_right (h n) (signal_weight_nonneg n)

theorem sum_map_filter_eq_sum_ite (l : List InteractionBonus)
    (p : InteractionBonus → Bool) (f : InteractionBonus → ℚ) :
    ((l.filter p).map f).sum = (l.map (fun b => if p b then f b else 0)).sum := by
  induction l with
  | nil => rfl
  | cons b bs ih =>
    by_cases hb : p b <;> simp [List.filter_cons, hb, ih]

theorem bonusApplies_mono {s1 s2 : SigName → ℚ} (h : ∀ n, s1 n ≤ s2 n)
    (b : InteractionBonus) (hb : bonusApplies s1 b) :
    bonusApplies s2 b :=
  fun s hs => le_trans (hb s hs) (pyRound_mono 1 (h s))

theorem bonus_nonneg_of_mem {b : InteractionBonus} (hb : b ∈ INTERACTION_BONUSES) :
    0 ≤ b.bonus := by
  simp only [INTERACTION_BONUSES, List.mem_cons, List.not_mem_nil, or_false] at hb
  rcases hb with rfl | rfl | rfl <;> norm_num [squeezeSetup, cascadeSetup, accumulationSetup]

theorem bonusMult_nonneg (s : SigName → ℚ) : 0 ≤ bonusMult s := by
  unfold bonusMult
  apply List.sum_nonneg
  intro x hx
  simp only [List.mem_map, List.mem_filter] at hx
  obtain ⟨b, ⟨hb, _⟩, rfl⟩ := hx
  exact bonus_nonneg_of_mem hb

theorem bonusMult_mono {s1 s2 : SigName → ℚ} (h : ∀ n, s1 n ≤ s2 n) :
    bonusMult s1 ≤ bonusMult s2 := by
  unfold bonusMult
  rw [sum_map_filter_eq_sum_ite, sum_map_filter_eq_sum_ite]
  apply List.sum_le_sum
  intro b hb
  by_cases h1 : bonusApplies s1 b
  · rw [if_pos (decide_eq_true h1), if_pos (decide_eq_true (bonusApplies_mono h b h1))]
  · rw [if_neg (by simpa using h1)]
    split_ifs with h2
    · exact bonus_nonneg_of_mem hb
    · exact le_refl 0

theorem penaltyMult_le_one (p7 : ℚ) : 1 - penaltyMult p7 ≥ 0 := by
  unfold penaltyMult EXTENDED_PRICE_PENALTY
  split_ifs <;> norm_num

theorem finalScore_mono_update (signals : SigName → ℚ) (p7 : ℚ)
    (hs : ∀ n, 0 ≤ signals n) (n : SigName) (v : ℚ) (hv : signals n ≤ v) :
    finalScore signals p7 ≤ finalScore (Function.update signals n v) p7 := by
  have hpoint : ∀ m, signals m ≤ Function.update signals n v m := by
    intro m
    rcases eq_or_ne m n with rfl | hm
    · simpa [Function.update_same] using hv
    · simp [Function.update_noteq hm]
  unfold finalScore
  apply clamp_mono
  have hb := baseScore_mono hpoint
  have hb0 : 0 ≤ baseScore signals := baseScore_nonneg _ hs
  have hbm := bonusMult_mono hpoint
  have hbm0 : 0 ≤ bonusMult signals := bonusMult_nonneg _
  have h1 : baseScore signals * (1 + bonusMult signals) ≤
      baseScore (Function.update signals n v) * (1 + bonusMult (Function.update signals n v)) :=
    mul_le_mul hb (by linarith) (by linarith) (by linarith)
  exact mul_le_mul_of_nonneg_right h1 (penaltyMult_le_one p7)

/-- C1 (amended): the composite score returned by Scorer.score equals the
clamp formula ROUNDED to one decimal (Python `round(final, 1)`), with bonus
eligibility tested on the one-decimal-rounded signal scores; and the
returned composite score is monotonic non-decreasing in any single signal's
normalized score holding the other signals and price_change_7d fixed. -/
theorem C1_composite_formula_and_monotone
    (signals : SigName → ℚ) (p7 : ℚ)
    (hs : ∀ n, 0 ≤ signals n ∧ signals n ≤ 100)
    (n : SigName) (v : ℚ) (hv : signals n ≤ v) (hv100 : v ≤ 100) :
    (Scorer.score signals p7).composite_score = pyRound 1 (finalScore signals p7) ∧
    (Scorer.score signals p7).composite_score ≤
      (Scorer.score (Function.update signals n v) p7).composite_score := by
  refine ⟨rfl, ?_⟩
  exact pyRound_mono 1 (finalScore_mono_update signals p7 (fun m => (hs m).1) n v hv)

theorem C1_witness :
    ((∀ m, 0 ≤ allFifty m ∧ allFifty m ≤ 100) ∧
      allFifty SigName.oi_surge ≤ 60 ∧ (60:ℚ) ≤ 100) ∧
    ((Scorer.score allFifty 0).composite_score = pyRound 1 (finalScore allFifty 0) ∧
     (Scorer.score allFifty 0).composite_score ≤
       (Scorer.score (Function.update allFifty SigName.oi_surge 60) 0).composite_score) :=
  ⟨⟨fun m => by norm_num [allFifty], by norm_num [allFifty], by norm_num⟩,
   C1_composite_formula_and_monotone allFifty 0 (fun m => by norm_num [allFifty])
     SigName.oi_surge 60 (by norm_num [allFifty]) (by norm_num)⟩

theorem c1_base_eval : baseScore c1Scores = 9.18 := by
  norm_num [baseScore, sigNames, SIGNAL_WEIGHTS, c1Scores]

theorem pyRound1_of_zero : pyRound 1 (0:ℚ) = 0 :=
  pyRound_eq_self_of_int 1 0 0 (by norm_num)

theorem c1_bonus_eval : bonusMult c1Scores = 0 := by
  have h1 : ¬ bonusApplies c1Scores squeezeSetup := by
    intro h
    have h2 := h .funding_rate (by simp [squeezeSetup])
    simp only [c1Scores, squeezeSetup] at h2
    rw [pyRound1_of_zero] at h2
    norm_num at h2
  have h2 : ¬ bonusApplies c1Scores cascadeSetup := by
    intro h
    have h2 := h .liquidation_leverage (by simp [cascadeSetup])
    simp only [c1Scores, cascadeSetup] at h2
    rw [pyRound1_of_zero] at h2
    norm_num at h2
  have h3 : ¬ bonusApplies c1Scores accumulationSetup := by
    intro h
    have h2 := h .volume_price_decouple (by simp [accumulationSetup])
    simp only [c1Scores, accumulationSetup] at h2
    rw [pyRound1_of_zero] at h2
    norm_num at h2
  unfold bonusMult
  rw [INTERACTION_BONUSES]
  simp only [List.filter_cons, List.filter_nil, decide_eq_true_eq]
  rw [if_neg h1, if_neg h2, if_neg h3]
  simp

/-- C1 counterexample: with oi_surge = 51 and all other signals 0 the clamp
formula gives 9.18, but Scorer.score returns composite_score 9.2 (the
one-decimal rounding), so the claimed exact equality fails. -/
theorem C1_counterexample :
    (Scorer.score c1Scores 0).composite_score ≠
      clamp (baseScore c1Scores * (1 + bonusMult c1Scores) * (1 - penaltyMult 0)) 0 100 := by
  have hfinal : finalScore c1Scores 0 = 9.18 := by
    unfold finalScore
    rw [c1_base_eval, c1_bonus_eval]
    norm_num [clamp, penaltyMult, EXTENDED_PRICE_THRESHOLD_PCT, min_def, max_def]
  show pyRound 1 (finalScore c1Scores 0) ≠ _
  rw [hfinal, c1_base_eval, c1_bonus_eval,
    pyRound_eq_of_up 1 9.18 9.2 91 (by norm_num) (by norm_num) (by norm_num)]
  norm_num [clamp, penaltyMult, EXTENDED_PRICE_THRESHOLD_PCT, min_def, max_def]

/-- C2 (amended): the classification field is the threshold function of the
UNROUNDED final score (before the one-decimal rounding stored in
composite_score), with exact boundaries at 78/62/48/33. -/
theorem C2_classification_thresholds :
    (∀ (signals : SigName → ℚ) (p7 : ℚ),
      (Scorer.score signals p7).classification = classifyScore (finalScore signals p7)) ∧
    classifyScore 78 = "CRITICAL" ∧ classifyScore 77.9999 = "HIGH_ALERT" ∧
    classifyScore 62 = "HIGH_ALERT" ∧ classifyScore 61.9999 = "WATCHLIST" ∧
    classifyScore 48 = "WATCHLIST" ∧ classifyScore 47.9999 = "MONITOR" ∧
    classifyScore 33 = "MONITOR" ∧ classifyScore 32.9999 = "NONE" := by
  refine ⟨fun _ _ => rfl, ?_, ?_, ?_, ?_, ?_, ?_, ?_, ?_⟩ <;>
    norm_num [classifyScore, CRITICAL_THRESHOLD, HIGH_ALERT_THRESHOLD,
      WATCHLIST_THRESHOLD, MONITOR_THRESHOLD]

theorem c2_base_eval : baseScore c2Scores = 59.97 := by
  norm_num [baseScore, sigNames, SIGNAL_WEIGHTS, c2Scores]

theorem pyRound1_of_hundred : pyRound 1 (100:ℚ) = 100 :=
  pyRound_eq_self_of_int 1 100 1000 (by norm_num)

theorem c2_bonus_eval : bonusMult c2Scores = 0.30 := by
  have h1 : ¬ bonusApplies c2Scores squeezeSetup := by
    intro h
    have h2 := h .oi_surge (by simp [squeezeSetup])
    simp only [c2Scores, squeezeSetup] at h2
    rw [pyRound_eq_self_of_int 1 24.5 245 (by norm_num)] at h2
    norm_num at h2
  have h2 : bonusApplies c2Scores cascadeSetup := by
    intro s hs
    simp only [cascadeSetup, List.mem_cons, List.not_mem_nil, or_false] at hs
    rcases hs with rfl | rfl | rfl <;>
      (simp only [c2Scores, cascadeSetup]; rw [pyRound1_of_hundred]; norm_num)
  have h3 : ¬ bonusApplies c2Scores accumulationSetup := by
    intro h
    have h2 := h .volume_price_decouple (by simp [accumulationSetup])
    simp only [c2Scores, accumulationSetup] at h2
    rw [pyRound1_of_zero] at h2
    norm_num at h2
  unfold bonusMult
  rw [INTERACTION_BONUSES]
  simp only [List.filter_cons, List.filter_nil, decide_eq_true_eq]
  rw [if_neg h1, if_pos h2, if_neg h3]
  norm_num [cascadeSetup]

theorem c2_final_eval : finalScore c2Scores 0 = 77.961 := by
  unfold finalScore
  rw [c2_base_eval, c2_bonus_eval]
  norm_num [clamp, penaltyMult, EXTENDED_PRICE_THRESHOLD_PCT, min_def, max_def]

/-- C2 counterexample: with the c2Scores inputs the unrounded final score is
77.961, so classification is "HIGH_ALERT", but the returned composite_score
field is 78.0, whose threshold classification would be "CRITICAL": the
classification field is NOT the threshold function of the returned
composite_score field. -/
theorem C2_counterexample :
    (Scorer.score c2Scores 0).composite_score = 78 ∧
    (Scorer.score c2Scores 0).classification = "HIGH_ALERT" ∧
    (Scorer.score c2Scores 0).classification ≠
      classifyScore ((Scorer.score c2Scores 0).composite_score) := by
  have h1 : (Scorer.score c2Scores 0).composite_score = 78 := by
    show pyRound 1 (finalScore c2Scores 0) = 78
    rw [c2_final_eval]
    exact pyRound_eq_of_up 1 77.961 78 779 (by norm_num) (by norm_num) (by norm_num)
  have h2 : (Scorer.score c2Scores 0).classification = "HIGH_ALERT" := by
    show classifyScore (finalScore c2Scores 0) = "HIGH_ALERT"
    rw [c2_final_eval]
    norm_num [classifyScore, CRITICAL_THRESHOLD, HIGH_ALERT_THRESHOLD]
  refine ⟨h1, h2, ?_⟩
  rw [h1, h2]
  have h3 : classifyScore 78 = "CRITICAL" := by
    norm_num [classifyScore, CRITICAL_THRESHOLD]
  rw [h3]
  decide

/-! ### Trade monitor lemmas (C3, C4) -/

theorem setTpL_entry (t : Trade) (l : ℕ) : (t.setTpL l).entry_price = t.entry_price := by
  unfold Trade.setTpL; split_ifs <;> rfl

theorem setTpL_size (t : Trade) (l : ℕ) :
    (t.setTpL l).position_size_usd = t.position_size_usd := by
  unfold Trade.setTpL; split_ifs <;> rfl

theorem setTpL_slpct (t : Trade) (l : ℕ) : (t.setTpL l).stop_loss_pct = t.stop_loss_pct := by
  unfold Trade.setTpL; split_ifs <;> rfl

theorem setTpL_stop (t : Trade) (l : ℕ) :
    (t.setTpL l).current_stop_price = t.current_stop_price := by
  unfold Trade.setTpL; split_ifs <;> rfl

theorem setTpL_ets (t : Trade) (l : ℕ) : (t.setTpL l).entry_timestamp = t.entry_timestamp := by
  unfold Trade.setTpL; split_ifs <;> rfl

theorem setTpL_nsp (t : Trade) (l : ℕ) :
    (t.setTpL l).last_notified_stop_pct = t.last_notified_stop_pct := by
  unfold Trade.setTpL; split_ifs <;> rfl

theorem setTpL_lsc (t : Trade) (l : ℕ) : (t.setTpL l).last_score = t.last_score := by
  unfold Trade.setTpL; split_ifs <;> rfl

theorem setTpL_lsh (t : Trade) (l : ℕ) :
    (t.setTpL l).last_status_hour = t.last_status_hour := by
  unfold Trade.setTpL; split_ifs <;> rfl

theorem setTpL_rem (t : Trade) (l : ℕ) :
    (t.setTpL l).remaining_fraction = t.remaining_fraction := by
  unfold Trade.setTpL; split_ifs <;> rfl

theorem setTpL_rp (t : Trade) (l : ℕ) : (t.setTpL l).realized_pnl = t.realized_pnl := by
  unfold Trade.setTpL; split_ifs <;> rfl

theorem setTpL_mono (t : Trade) (l l2 : ℕ) (h : t.tpHitL l2 = true) :
    (t.setTpL l).tpHitL l2 = true := by
  unfold Trade.setTpL Trade.tpHitL at *
  split_ifs at * <;> simp_all

theorem TPPres_refl (rem0 : ℚ) (t : Trade) : TPPres rem0 t t :=
  ⟨rfl, rfl, rfl, rfl, rfl, rfl, rfl, rfl, Or.inl rfl, fun _ h => h⟩

theorem TPPres_trans {rem0 : ℚ} {t1 t2 t3 : Trade}
    (h1 : TPPres rem0 t1 t2) (h2 : TPPres rem0 t2 t3) : TPPres rem0 t1 t3 := by
  obtain ⟨a1, a2, a3, a4, a5, a6, a7, a8, a9, a10⟩ := h1
  obtain ⟨b1, b2, b3, b4, b5, b6, b7, b8, b9, b10⟩ := h2
  refine ⟨b1.trans a1, b2.trans a2, b3.trans a3, b4.trans a4, b5.trans a5,
    b6.trans a6, b7.trans a7, b8.trans a8, ?_, fun l h => b10 l (a10 l h)⟩
  rcases b9 with hb | hb
  · rw [hb]; exact a9
  · exact Or.inr hb

theorem tpFire_pres (ps pcp rem0 : ℚ) (t : Trade) (tp : TPLevel)
    (hsf : tp.sell_fraction = 1/4) :
    TPPres rem0 t (tpFire ps pcp rem0 t tp) := by
  unfold tpFire
  cases tp.pct with
  | none => exact TPPres_refl rem0 t
  | some tpct =>
    dsimp only
    by_cases hflag : t.tpHitL tp.level = true
    · rw [if_pos hflag]; exact TPPres_refl rem0 t
    · rw [if_neg hflag]
      by_cases hfire : pcp ≥ tpct
      · rw [if_pos hfire]
        refine ⟨?_, ?_, ?_, ?_, ?_, ?_, ?_, ?_, ?_, ?_⟩
        · simpa using setTpL_entry t tp.level
        · simpa using setTpL_size t tp.level
        · simpa using setTpL_slpct t tp.level
        · simpa using setTpL_stop t tp.level
        · simpa using setTpL_ets t tp.level
        · simpa using setTpL_nsp t tp.level
        · simpa using setTpL_lsc t tp.level
        · simpa using setTpL_lsh t tp.level
        · right; simp [hsf]
        · intro l h
          have h2 := setTpL_mono t tp.level l h
          unfold Trade.tpHitL at h2 ⊢
          split_ifs at h2 ⊢ <;> simp_all
      · rw [if_neg hfire]; exact TPPres_refl rem0 t

theorem tpFoldl_pres (ps pcp rem0 : ℚ) (levels : List TPLevel)
    (hsf : ∀ tp ∈ levels, tp.sell_fraction = 1/4) (t : Trade) :
    TPPres rem0 t (levels.foldl (tpFire ps pcp rem0) t) := by
  induction levels generalizing t with
  | nil => exact TPPres_refl rem0 t
  | cons tp rest ih =>
    simp only [List.foldl_cons]
    exact TPPres_trans (tpFire_pres ps pcp rem0 t tp (hsf tp (by simp)))
      (ih (fun x hx => hsf x (by simp [hx])) _)

theorem tpLoop_pres (ps pcp rem0 : ℚ) (t : Trade) :
    TPPres rem0 t (tpLoop ps pcp rem0 t) := by
  apply tpFoldl_pres
  intro tp htp
  simp only [TAKE_PROFIT_LEVELS, List.mem_cons, List.not_mem_nil, or_false] at htp
  rcases htp with rfl | rfl | rfl | rfl <;> norm_num

theorem trailFoldl_spec (ep pcp : ℚ) (rungs : List TrailRung) (p : ℚ × ℚ) :
    p.1 ≤ (rungs.foldl (trailScanF ep pcp) p).1 ∧
    (rungs.foldl (trailScanF ep pcp) p = p ∨
      (p.1 < (rungs.foldl (trailScanF ep pcp) p).1 ∧
       (rungs.foldl (trailScanF ep pcp) p).2 =
         ep * (1 + (rungs.foldl (trailScanF ep pcp) p).1 / 100))) := by
  induction rungs generalizing p with
  | nil => exact ⟨le_refl _, Or.inl rfl⟩
  | cons r rs ih =>
    simp only [List.foldl_cons]
    by_cases hc : pcp ≥ r.price_move_pct ∧ r.stop_at_pct > p.1
    · have hstep : trailScanF ep pcp p r = (r.stop_at_pct, ep * (1 + r.stop_at_pct / 100)) := by
        unfold trailScanF; rw [if_pos hc]
      rw [hstep]
      obtain ⟨h1, h2⟩ := ih (r.stop_at_pct, ep * (1 + r.stop_at_pct / 100))
      refine ⟨le_trans (le_of_lt hc.2) h1, Or.inr ?_⟩
      rcases h2 with heq | ⟨hlt, hform⟩
      · rw [heq]; exact ⟨hc.2, rfl⟩
      · exact ⟨lt_trans hc.2 hlt, hform⟩
    · have hstep : trailScanF ep pcp p r = p := by
        unfold trailScanF; rw [if_neg hc]
      rw [hstep]
      exact ih p

theorem trailStep_spec (ep pcp : ℚ) (t : Trade) (hep : 0 < ep)
    (h0 : 0 ≤ t.last_notified_stop_pct)
    (hcs : t.current_stop_price ≤ ep * (1 + t.last_notified_stop_pct / 100)) :
    (trailStep ep pcp t).entry_price = t.entry_price ∧
    (trailStep ep pcp t).position_size_usd = t.position_size_usd ∧
    (trailStep ep pcp t).stop_loss_pct = t.stop_loss_pct ∧
    (trailStep ep pcp t).entry_timestamp = t.entry_timestamp ∧
    (trailStep ep pcp t).remaining_fraction = t.remaining_fraction ∧
    (trailStep ep pcp t).realized_pnl = t.realized_pnl ∧
    (trailStep ep pcp t).last_score = t.last_score ∧
    (trailStep ep pcp t).last_status_hour = t.last_status_hour ∧
    (∀ l, (trailStep ep pcp t).tpHitL l = t.tpHitL l) ∧
    t.current_stop_price ≤ (trailStep ep pcp t).current_stop_price ∧
    0 ≤ (trailStep ep pcp t).last_notified_stop_pct ∧
    (trailStep ep pcp t).current_stop_price ≤
      ep * (1 + (trailStep ep pcp t).last_notified_stop_pct / 100) := by
  unfold trailStep
  dsimp only
  obtain ⟨h1, h2⟩ := trailFoldl_spec ep pcp STOP_LOSS_TRAIL
    (t.last_notified_stop_pct, t.current_stop_price)
  split_ifs with hr
  · rcases h2 with heq | ⟨hlt, hform⟩
    · rw [heq] at hr
      exact absurd hr (lt_irrefl _)
    · refine ⟨rfl, rfl, rfl, rfl, rfl, rfl, rfl, rfl, fun l => rfl, ?_, ?_, ?_⟩
      · simp only
        rw [hform]
        calc t.current_stop_price ≤ ep * (1 + t.last_notified_stop_pct / 100) := hcs
          _ ≤ ep * (1 + (STOP_LOSS_TRAIL.foldl (trailScanF ep pcp)
                (t.last_notified_stop_pct, t.current_stop_price)).1 / 100) := by
              apply mul_le_mul_of_nonneg_left _ (le_of_lt hep)
              have h3 := h1
              linarith
      · simp only
        exact le_trans h0 h1
      · simp only
        rw [hform]
  · exact ⟨rfl, rfl, rfl, rfl, rfl, rfl, rfl, rfl, fun l => rfl, le_refl _, h0, hcs⟩

theorem checkTrade_step {t t2 : Trade} {i : TickInput} (hI : TradeInv t)
    (h : Scanner.checkTrade t i = .active t2) :
    TradeInv t2 ∧
    t.current_stop_price ≤ t2.current_stop_price ∧
    t2.remaining_fraction ≤ t.remaining_fraction ∧
    (∀ l, t.tpHitL l = true → t2.tpHitL l = true) := by
  obtain ⟨hep, hr0, hr1, hn0, hcs⟩ := hI
  unfold Scanner.checkTrade at h
  split_ifs at h with hrem
  cases hl : i.live_price with
  | none =>
    rw [hl] at h
    simp only [TickResult.active.injEq] at h
    subst h
    exact ⟨⟨hep, hr0, hr1, hn0, hcs⟩, le_refl _, le_refl _, fun _ h => h⟩
  | some cp =>
    rw [hl] at h
    dsimp only at h
    by_cases hcp0 : cp = 0
    case pos =>
      rw [if_pos hcp0] at h
      simp only [TickResult.active.injEq] at h
      subst h
      exact ⟨⟨hep, hr0, hr1, hn0, hcs⟩, le_refl _, le_refl _, fun _ h => h⟩
    case neg =>
      rw [if_neg hcp0] at h
      by_cases hstop : cp ≤ t.current_stop_price
      case pos =>
        rw [if_pos hstop] at h
        simp at h
      case neg =>
      rw [if_neg hstop] at h
      simp only [TickResult.active.injEq] at h
      obtain ⟨p1, p2, p3, p4, p5, p6, p7, p8, p9, p10⟩ :=
        tpLoop_pres t.position_size_usd (((cp - t.entry_price) / t.entry_price) * 100)
          t.remaining_fraction t
      set t1 := tpLoop t.position_size_usd (((cp - t.entry_price) / t.entry_price) * 100)
        t.remaining_fraction t with ht1
      have hrem1 : 0 ≤ t1.remaining_fraction ∧ t1.remaining_fraction ≤ 1 ∧
          t1.remaining_fraction ≤ t.remaining_fraction := by
        rcases p9 with hq | hq
        · rw [hq]; exact ⟨hr0, hr1, le_refl _⟩
        · rw [hq]
          refine ⟨le_max_left _ _, max_le (by norm_num) (by linarith), ?_⟩
          exact max_le hr0 (by linarith)
      obtain ⟨q1, q2, q3, q4, q5, q6, q7, q8, q9, q10, q11, q12⟩ :=
        trailStep_spec t.entry_price (((cp - t.entry_price) / t.entry_price) * 100) t1 hep
          (by rw [p6]; exact hn0) (by rw [p4, p6]; exact hcs)
      set t2a := trailStep t.entry_price (((cp - t.entry_price) / t.entry_price) * 100) t1
        with ht2a
      have key : ∀ t3 : Trade,
          t3.entry_price = t2a.entry_price →
          t3.remaining_fraction = t2a.remaining_fraction →
          t3.last_notified_stop_pct = t2a.last_notified_stop_pct →
          t3.current_stop_price = t2a.current_stop_price →
          (∀ l, t3.tpHitL l = t2a.tpHitL l) →
          t3 = t2 →
          TradeInv t2 ∧ t.current_stop_price ≤ t2.current_stop_price ∧
          t2.remaining_fraction ≤ t.remaining_fraction ∧
          (∀ l, t.tpHitL l = true → t2.tpHitL l = true) := by
        intro t3 e1 e2 e3 e4 e5 e6
        subst e6
        refine ⟨⟨?_, ?_, ?_, ?_, ?_⟩, ?_, ?_, ?_⟩
        · rw [e1, q1, p1]; exact hep
        · rw [e2, q5]; exact hrem1.1
        · rw [e2, q5]; exact hrem1.2.1
        · rw [e3]; exact q11
        · rw [e4, e3, e1, q1, p1]
          exact q12
        · rw [e4]
          calc t.current_stop_price = t1.current_stop_price := p4.symm
            _ ≤ t2a.current_stop_price := q10
        · rw [e2, q5]; exact hrem1.2.2
        · intro l hfl
          rw [e5 l, q9 l]
          exact p10 l hfl
      cases hls : i.latest_score with
      | none =>
        rw [hls] at h
        dsimp only at h
        split_ifs at h with hch
        · exact key _ (by simp [← h]) (by simp [← h]) (by simp [← h]) (by simp [← h])
            (fun l => by simp [← h, Trade.tpHitL]) rfl
        · exact key _ (by rw [← h]) (by rw [← h]) (by rw [← h]) (by rw [← h])
            (fun l => by rw [← h]) rfl
      | some sc =>
        rw [hls] at h
        dsimp only at h
        split_ifs at h with hch
        · exact key _ (by simp [← h]) (by simp [← h]) (by simp [← h]) (by simp [← h])
            (fun l => by simp [← h, Trade.tpHitL]) rfl
        · exact key _ (by simp [← h]) (by simp [← h]) (by simp [← h]) (by simp [← h])
            (fun l => by simp [← h, Trade.tpHitL]) rfl

theorem addTrade_inv (ep ps sl now : ℚ) (hep : 0 < ep) (hsl : 0 ≤ sl) :
    TradeInv (Database.addTrade ep ps sl now) := by
  refine ⟨hep, by norm_num [Database.addTrade], by norm_num [Database.addTrade],
    by norm_num [Database.addTrade], ?_⟩
  show ep * (1 - sl / 100) ≤ ep * (1 + 0 / 100)
  apply mul_le_mul_of_nonneg_left _ (le_of_lt hep)
  have : (0:ℚ) ≤ sl / 100 := by positivity
  linarith

theorem evolve_inv {t t2 : Trade} {ticks : List TickInput} (hI : TradeInv t)
    (h : evolveTrade t ticks = some t2) : TradeInv t2 := by
  induction ticks generalizing t with
  | nil =>
    unfold evolveTrade at h
    injection h with h
    rwa [← h]
  | cons i rest ih =>
    unfold evolveTrade at h
    cases hc : Scanner.checkTrade t i with
    | closed r => rw [hc] at h; simp at h
    | active t1 =>
      rw [hc] at h
      dsimp only at h
      exact ih (checkTrade_step hI hc).1 h

/-- C3 (amended): for any trade created by add_trade with POSITIVE entry
price and NONNEGATIVE stop_loss_pct, after any sequence of monitor ticks the
record satisfies 0 ≤ remaining_fraction ≤ 1, and on any further tick
current_stop_price never decreases, remaining_fraction never increases, and
each tpN_hit flag only ever transitions 0 to 1 and is never cleared. -/
theorem C3_trade_invariants (ep ps sl now : ℚ) (hep : 0 < ep) (hsl : 0 ≤ sl)
    (ticks : List TickInput) (t : Trade)
    (ht : evolveTrade (Database.addTrade ep ps sl now) ticks = some t) :
    (0 ≤ t.remaining_fraction ∧ t.remaining_fraction ≤ 1) ∧
    (∀ i t2, Scanner.checkTrade t i = .active t2 →
      t.current_stop_price ≤ t2.current_stop_price ∧
      t2.remaining_fraction ≤ t.remaining_fraction ∧
      (∀ l, t.tpHitL l = true → t2.tpHitL l = true)) := by
  have hI := evolve_inv (addTrade_inv ep ps sl now hep hsl) ht
  exact ⟨⟨hI.2.1, hI.2.2.1⟩, fun i t2 hstep => (checkTrade_step hI hstep).2⟩

theorem C3_witness :
    ((0:ℚ) < 100 ∧ (0:ℚ) ≤ 7 ∧
      evolveTrade (Database.addTrade 100 10000 7 0) [] =
        some (Database.addTrade 100 10000 7 0)) ∧
    ((0 ≤ (Database.addTrade 100 10000 7 0).remaining_fraction ∧
      (Database.addTrade 100 10000 7 0).remaining_fraction ≤ 1) ∧
     (∀ i t2, Scanner.checkTrade (Database.addTrade 100 10000 7 0) i = .active t2 →
      (Database.addTrade 100 10000 7 0).current_stop_price ≤ t2.current_stop_price ∧
      t2.remaining_fraction ≤ (Database.addTrade 100 10000 7 0).remaining_fraction ∧
      (∀ l, (Database.addTrade 100 10000 7 0).tpHitL l = true → t2.tpHitL l = true))) :=
  ⟨⟨by norm_num, by norm_num, rfl⟩,
   C3_trade_invariants 100 10000 7 0 (by norm_num) (by norm_num) [] _ rfl⟩

/-- C3 counterexample: add_trade accepts a NEGATIVE stop_loss_pct (no caller
validates it); entry 100, stop -8 percent gives current_stop_price 108, and
one monitor tick at live price 112 ratchets the stop DOWN to 105 via the +5
trail rung — the claimed "current_stop_price never decreases" fails for
trades created by add_trade with a negative stop_loss_pct. -/
theorem C3_counterexample :
    (Database.addTrade 100 10000 (-8) 0).current_stop_price = 108 ∧
    Scanner.checkTrade (Database.addTrade 100 10000 (-8) 0) ⟨some 112, none, 0⟩ =
      .active { Database.addTrade 100 10000 (-8) 0 with
                current_stop_price := 105, last_notified_stop_pct := 5 } ∧
    (105 : ℚ) < 108 := by
  refine ⟨by norm_num [Database.addTrade], ?_, by norm_num⟩
  norm_num [Scanner.checkTrade, Database.addTrade, tpLoop, TAKE_PROFIT_LEVELS, tpFire,
    Trade.tpHitL, Trade.setTpL, trailStep, trailScanF, STOP_LOSS_TRAIL, pyInt,
    List.foldl_cons, List.foldl_nil]

/-- C4: evaluation of one monitor tick at the claim's inputs.  At live price
135 (gain 35 percent) BOTH TP1 and TP2 fire and realized_pnl gains both 875
chunks, but remaining_fraction ends at 0.75, NOT 0.5 = 1 - 2x0.25: every
firing recomputes `nr = rem - sf` from the stale pre-tick local `rem`.  At
live price 115 the single-threshold case matches the claim exactly
(realized_pnl 375, remaining_fraction 0.75). -/
theorem C4_multi_tp_single_decrement :
    Scanner.checkTrade (Database.addTrade 100 10000 7 0) ⟨some 135, none, 0⟩ =
      .active { Database.addTrade 100 10000 7 0 with
                tp1_hit := true, tp2_hit := true,
                remaining_fraction := 0.75, realized_pnl := 1750,
                current_stop_price := 118, last_notified_stop_pct := 18 } ∧
    Scanner.checkTrade (Database.addTrade 100 10000 7 0) ⟨some 115, none, 0⟩ =
      .active { Database.addTrade 100 10000 7 0 with
                tp1_hit := true,
                remaining_fraction := 0.75, realized_pnl := 375,
                current_stop_price := 110, last_notified_stop_pct := 10 } := by
  constructor <;>
    norm_num [Scanner.checkTrade, Database.addTrade, tpLoop, TAKE_PROFIT_LEVELS, tpFire,
      Trade.tpHitL, Trade.setTpL, trailStep, trailScanF, STOP_LOSS_TRAIL, pyInt,
      List.foldl_cons, List.foldl_nil]

/-! ### Stop-loss selection lemmas (C5) -/

theorem swingCandidate_rel {price : ℚ} {candles : List Candle} {c : StopCand}
    (h : swingCandidate price candles = some c) :
    c.spct = ((price - c.sprice) / price) * 100 := by
  unfold swingCandidate at h
  split_ifs at h
  dsimp only at h
  rcases hm : (((candles.drop (candles.length - min 24 candles.length)).filter
      (fun c => decide (0 < c.lo))).map Candle.lo).min? with _ | sl
  · rw [hm] at h; cases h
  · rw [hm] at h
    dsimp only at h
    injection h with h
    subst h
    rfl

theorem obCandidate_rel {price : ℚ} {bids : List (ℚ × ℚ)} {c : StopCand}
    (h : obCandidate price bids = some c) :
    c.spct = ((price - c.sprice) / price) * 100 := by
  unfold obCandidate at h
  split_ifs at h
  rcases hm : bidCluster bids price 10.0 with _ | sup
  · rw [hm] at h; cases h
  · rw [hm] at h
    dsimp only at h
    injection h with h
    subst h
    rfl

theorem restCands_props (price : ℚ) (candles : List Candle) (bids : List (ℚ × ℚ))
    (hp : 0 < price) :
    ∀ c ∈ restCands price candles bids,
      MIN_STOP_PCT ≤ c.spct ∧ c.spct ≤ MAX_STOP_PCT ∧
      c.sprice = price * (1 - c.spct / 100) := by
  have key : ∀ (o : Option StopCand),
      (∀ c, o = some c → c.spct = ((price - c.sprice) / price) * 100) →
      ∀ c ∈ optBand o, MIN_STOP_PCT ≤ c.spct ∧ c.spct ≤ MAX_STOP_PCT ∧
        c.sprice = price * (1 - c.spct / 100) := by
    intro o hrel c hc
    rcases o with _ | c0
    · simp [optBand] at hc
    · simp only [optBand, bandGuard] at hc
      split_ifs at hc with hband
      · simp only [List.mem_singleton] at hc
        subst hc
        refine ⟨hband.1, hband.2, ?_⟩
        rw [hrel c rfl]
        field_simp
        ring
      · simp at hc
  intro c hc
  rcases List.mem_append.mp hc with hc | hc
  · exact key _ (fun c0 h => swingCandidate_rel h) c hc
  · exact key _ (fun c0 h => obCandidate_rel h) c hc

theorem atrCandidate_dist (price atr score : ℚ) (ha : 0 < atr) :
    atr ≤ price - (atrCandidate price atr score).sprice := by
  unfold atrCandidate
  dsimp only
  split_ifs <;> nlinarith

theorem atrCandidate_spct (price atr score : ℚ) :
    (atrCandidate price atr score).spct =
      ((price - (atrCandidate price atr score).sprice) / price) * 100 := by
  unfold atrCandidate
  split_ifs <;> rfl

theorem maxBySPrice_nil (c : StopCand) : maxBySPrice c [] = c := rfl

theorem stopBest_eq_spec (price atr score : ℚ) (candles : List Candle)
    (bids : List (ℚ × ℚ)) (hp : 0 < price) (ha : 0 < atr) :
    stopBest price atr score candles bids =
      specStopSelect price atr (atrCandidate price atr score)
        (stopCandidates price atr score candles bids) := by
  have hrest := restCands_props price candles bids hp
  have hdist := atrCandidate_dist price atr score ha
  have hone : atr * 1.0 = atr := by norm_num
  have hcondR : ∀ c ∈ restCands price candles bids,
      (decide (price - c.sprice ≥ atr * 1.0 ∧ c.spct ≥ MIN_STOP_PCT)) =
      (decide (price - c.sprice ≥ atr ∧
        MIN_STOP_PCT ≤ c.spct ∧ c.spct ≤ MAX_STOP_PCT)) := by
    intro c hc
    obtain ⟨h1, h2, _⟩ := hrest c hc
    rw [decide_eq_decide]
    constructor
    · rintro ⟨d1, _⟩
      rw [hone] at d1
      exact ⟨d1, h1, h2⟩
    · rintro ⟨d1, _, _⟩
      rw [ge_iff_le, hone]
      exact ⟨d1, h1⟩
  unfold stopBest specStopSelect
  by_cases hband : (atrCandidate price atr score).spct ≤ MAX_STOP_PCT
  · have hcondA :
        (decide (price - (atrCandidate price atr score).sprice ≥ atr * 1.0 ∧
          (atrCandidate price atr score).spct ≥ MIN_STOP_PCT)) =
        (decide (price - (atrCandidate price atr score).sprice ≥ atr ∧
          MIN_STOP_PCT ≤ (atrCandidate price atr score).spct ∧
          (atrCandidate price atr score).spct ≤ MAX_STOP_PCT)) := by
      rw [decide_eq_decide]
      constructor
      · rintro ⟨d1, d2⟩
        rw [hone] at d1
        exact ⟨d1, d2, hband⟩
      · rintro ⟨d1, d2, _⟩
        rw [ge_iff_le, hone]
        exact ⟨d1, d2⟩
    have hfe : (stopCandidates price atr score candles bids).filter
        (fun c => decide (price - c.sprice ≥ atr * 1.0 ∧ c.spct ≥ MIN_STOP_PCT)) =
        (stopCandidates price atr score candles bids).filter
        (fun c => decide (price - c.sprice ≥ atr ∧
          MIN_STOP_PCT ≤ c.spct ∧ c.spct ≤ MAX_STOP_PCT)) := by
      apply List.filter_congr
      intro c hc
      rcases List.mem_cons.mp hc with rfl | hc
      · exact hcondA
      · exact hcondR c hc
    rw [hfe]
  · have hgt : MAX_STOP_PCT < (atrCandidate price atr score).spct := not_le.mp hband
    have hsrcA : (decide (price - (atrCandidate price atr score).sprice ≥ atr * 1.0 ∧
        (atrCandidate price atr score).spct ≥ MIN_STOP_PCT)) = true := by
      rw [decide_eq_true_eq, ge_iff_le, hone]
      refine ⟨hdist, ?_⟩
      rw [ge_iff_le]
      unfold MAX_STOP_PCT at hgt
      unfold MIN_STOP_PCT
      linarith
    have hspecA : (decide (price - (atrCandidate price atr score).sprice ≥ atr ∧
        MIN_STOP_PCT ≤ (atrCandidate price atr score).spct ∧
        (atrCandidate price atr score).spct ≤ MAX_STOP_PCT)) = false := by
      rw [decide_eq_false_iff_not]
      rintro ⟨_, _, h3⟩
      exact absurd h3 hband
    unfold stopCandidates
    rw [List.filter_cons, List.filter_cons, hsrcA, hspecA]
    simp only [if_true, if_false]
    rw [List.filter_congr hcondR]
    rcases hF : (restCands price candles bids).filter
        (fun c => decide (price - c.sprice ≥ atr ∧
          MIN_STOP_PCT ≤ c.spct ∧ c.spct ≤ MAX_STOP_PCT)) with _ | ⟨c, cs⟩
    · rw [hF]
      rfl
    · rw [hF]
      have hcmem : c ∈ restCands price candles bids := by
        have : c ∈ (restCands price candles bids).filter
            (fun c => decide (price - c.sprice ≥ atr ∧
              MIN_STOP_PCT ≤ c.spct ∧ c.spct ≤ MAX_STOP_PCT)) := by
          rw [hF]; exact List.mem_cons_self c cs
        exact List.mem_of_mem_filter this
      obtain ⟨h1, h2, h3⟩ := hrest c hcmem
      have hlt : (atrCandidate price atr score).sprice < c.sprice := by
        have hspct := atrCandidate_spct price atr score
        have ha85 : (atrCandidate price atr score).sprice <
            price * (1 - MAX_STOP_PCT / 100) := by
          rw [hspct] at hgt
          unfold MAX_STOP_PCT at hgt ⊢
          have hgt2 : 15.0 * price <
              (price - (atrCandidate price atr score).sprice) * 100 := by
            rw [show ((price - (atrCandidate price atr score).sprice) / price) * 100 =
              ((price - (atrCandidate price atr score).sprice) * 100) / price from by
                ring] at hgt
            exact (lt_div_iff hp).mp hgt
          linarith
        have hc85 : price * (1 - MAX_STOP_PCT / 100) ≤ c.sprice := by
          rw [h3]
          unfold MAX_STOP_PCT at h2 ⊢
          nlinarith [mul_nonneg (le_of_lt hp) (show (0:ℚ) ≤ 15.0 - c.spct by linarith)]
        linarith
      unfold maxBySPrice
      simp only [List.foldl_cons]
      rw [if_pos hlt]
      simp

/-- C5: in _calc_stop (price > 0, ATR > 0) the selection equals the spec's
procedure - candidates filtered to at least 1xATR below price AND stop pct
within [2.5, 15], tightest (maximum stop price) wins, ATR stop is the forced
fallback - and the clamped stop's distance from price always lies within
[2.5 pct, 15 pct] of price (the stored price field is its 8-decimal
rounding, the stored pct its 2-decimal rounding). -/
theorem C5_stop_selection_and_clamp (price atr score : ℚ)
    (candles : List Candle) (bids : List (ℚ × ℚ)) (hp : 0 < price) (ha : 0 < atr) :
    stopBest price atr score candles bids =
      specStopSelect price atr (atrCandidate price atr score)
        (stopCandidates price atr score candles bids) ∧
    MIN_STOP_PCT ≤ ((price - stopFinal price
      (stopBest price atr score candles bids).sprice) / price) * 100 ∧
    ((price - stopFinal price
      (stopBest price atr score candles bids).sprice) / price) * 100 ≤ MAX_STOP_PCT ∧
    (LevelsCalculator.calcStop price atr score candles bids).sprice =
      pyRound 8 (stopFinal price (stopBest price atr score candles bids).sprice) ∧
    (LevelsCalculator.calcStop price atr score candles bids).spct =
      pyRound 2 (((price - stopFinal price
        (stopBest price atr score candles bids).sprice) / price) * 100) ∧
    (LevelsCalculator.calcStop price atr score candles bids).method =
      (stopBest price atr score candles bids).method := by
  refine ⟨stopBest_eq_spec price atr score candles bids hp ha, ?_, ?_, rfl, rfl, rfl⟩
  · set s := (stopBest price atr score candles bids).sprice
    have hfle : stopFinal price s ≤ price * (1 - MIN_STOP_PCT / 100) := by
      unfold stopFinal
      apply max_le
      · unfold MIN_STOP_PCT MAX_STOP_PCT
        nlinarith [hp]
      · exact min_le_left _ _
    have hq : MIN_STOP_PCT / 100 ≤ (price - stopFinal price s) / price := by
      rw [le_div_iff hp]
      unfold MIN_STOP_PCT at hfle ⊢
      nlinarith [hfle]
    unfold MIN_STOP_PCT at hq ⊢
    nlinarith [hq]
  · set s := (stopBest price atr score candles bids).sprice
    have hfge : price * (1 - MAX_STOP_PCT / 100) ≤ stopFinal price s :=
      le_max_left _ _
    have hq : (price - stopFinal price s) / price ≤ MAX_STOP_PCT / 100 := by
      rw [div_le_iff hp]
      unfold MAX_STOP_PCT at hfge ⊢
      nlinarith [hfge]
    unfold MAX_STOP_PCT at hq ⊢
    nlinarith [hq]

theorem C5_witness :
    ((0:ℚ) < 100 ∧ (0:ℚ) < 2) ∧
    (stopBest 100 2 50 [] [] =
      specStopSelect 100 2 (atrCandidate 100 2 50) (stopCandidates 100 2 50 [] []) ∧
    MIN_STOP_PCT ≤ ((100 - stopFinal 100 (stopBest 100 2 50 [] []).sprice) / 100) * 100 ∧
    ((100 - stopFinal 100 (stopBest 100 2 50 [] []).sprice) / 100) * 100 ≤ MAX_STOP_PCT ∧
    (LevelsCalculator.calcStop 100 2 50 [] []).sprice =
      pyRound 8 (stopFinal 100 (stopBest 100 2 50 [] []).sprice) ∧
    (LevelsCalculator.calcStop 100 2 50 [] []).spct =
      pyRound 2 (((100 - stopFinal 100 (stopBest 100 2 50 [] []).sprice) / 100) * 100) ∧
    (LevelsCalculator.calcStop 100 2 50 [] []).method = (stopBest 100 2 50 [] []).method) :=
  ⟨⟨by norm_num, by norm_num⟩,
   C5_stop_selection_and_clamp 100 2 50 [] [] (by norm_num) (by norm_num)⟩

/-! ### piecewise_lerp lemmas (C6) -/

theorem getLast_cons_cons {α : Type} (a b : α) (l : List α) :
    (a :: b :: l).getLast (List.cons_ne_nil a (b :: l)) =
      (b :: l).getLast (List.cons_ne_nil b l) := rfl

theorem xsorted_lt_of_mem {b : ℚ × ℚ} {l : List (ℚ × ℚ)}
    (h : List.Chain' (fun a c => a.1 < c.1) (b :: l)) :
    ∀ p ∈ l, b.1 < p.1 := by
  induction l generalizing b with
  | nil => intro p hp; simp at hp
  | cons c cs ih =>
    intro p hp
    rw [List.chain'_cons] at h
    rcases List.mem_cons.mp hp with rfl | hp
    · exact h.1
    · exact lt_trans h.1 (ih h.2 p hp)

theorem ymono_head_le_last {b : ℚ × ℚ} {l : List (ℚ × ℚ)}
    (h : List.Chain' (fun a c => a.2 ≤ c.2) (b :: l)) :
    b.2 ≤ ((b :: l).getLast (List.cons_ne_nil b l)).2 := by
  induction l generalizing b with
  | nil => exact le_refl _
  | cons c cs ih =>
    rw [List.chain'_cons] at h
    rw [getLast_cons_cons]
    exact le_trans h.1 (ih h.2)

theorem xsorted_head_le_last {b : ℚ × ℚ} {l : List (ℚ × ℚ)}
    (h : List.Chain' (fun a c => a.1 < c.1) (b :: l)) :
    b.1 ≤ ((b :: l).getLast (List.cons_ne_nil b l)).1 := by
  induction l generalizing b with
  | nil => exact le_refl _
  | cons c cs ih =>
    rw [List.chain'_cons] at h
    rw [getLast_cons_cons]
    exact le_trans (le_of_lt h.1) (ih h.2)

theorem lerpScan_lower {v x0 y0 : ℚ} {rest : List (ℚ × ℚ)}
    (hx : List.Chain' (fun a c => a.1 < c.1) ((x0, y0) :: rest))
    (hy : List.Chain' (fun a c => a.2 ≤ c.2) ((x0, y0) :: rest))
    (h1 : x0 ≤ v)
    (h2 : v < (((x0, y0) :: rest).getLast (List.cons_ne_nil (x0, y0) rest)).1) :
    y0 ≤ lerpScan v ((x0, y0) :: rest) := by
  induction rest generalizing x0 y0 with
  | nil =>
    exfalso
    exact absurd (lt_of_le_of_lt h1 h2) (lt_irrefl x0)
  | cons b rs ih =>
    obtain ⟨x1, y1⟩ := b
    rw [List.chain'_cons] at hx hy
    rw [getLast_cons_cons] at h2
    unfold lerpScan
    by_cases hseg : v ≤ x1
    · rw [if_pos ⟨h1, hseg⟩, if_neg (ne_of_gt hx.1)]
      have ht : 0 ≤ (v - x0) / (x1 - x0) :=
        div_nonneg (by linarith) (by linarith [hx.1])
      nlinarith [mul_nonneg ht (show (0:ℚ) ≤ y1 - y0 by linarith [hy.1])]
    · rw [if_neg (fun hand => hseg hand.2)]
      exact le_trans hy.1 (ih hx.2 hy.2 (by linarith [not_le.mp hseg]) h2)

theorem lerpScan_upper {v x0 y0 : ℚ} {rest : List (ℚ × ℚ)}
    (hx : List.Chain' (fun a c => a.1 < c.1) ((x0, y0) :: rest))
    (hy : List.Chain' (fun a c => a.2 ≤ c.2) ((x0, y0) :: rest))
    (h1 : x0 ≤ v)
    (h2 : v < (((x0, y0) :: rest).getLast (List.cons_ne_nil (x0, y0) rest)).1) :
    lerpScan v ((x0, y0) :: rest) ≤
      (((x0, y0) :: rest).getLast (List.cons_ne_nil (x0, y0) rest)).2 := by
  induction rest generalizing x0 y0 with
  | nil =>
    exfalso
    exact absurd (lt_of_le_of_lt h1 h2) (lt_irrefl x0)
  | cons b rs ih =>
    obtain ⟨x1, y1⟩ := b
    rw [List.chain'_cons] at hx hy
    rw [getLast_cons_cons] at h2 ⊢
    unfold lerpScan
    by_cases hseg : v ≤ x1
    · rw [if_pos ⟨h1, hseg⟩, if_neg (ne_of_gt hx.1)]
      have hy1 : y1 ≤ (((x1, y1) :: rs).getLast (List.cons_ne_nil (x1, y1) rs)).2 :=
        ymono_head_le_last hy.2
      have ht1 : (v - x0) / (x1 - x0) ≤ 1 := by
        rw [div_le_one (by linarith [hx.1] : (0:ℚ) < x1 - x0)]
        linarith
      have ht : 0 ≤ (v - x0) / (x1 - x0) :=
        div_nonneg (by linarith) (by linarith [hx.1])
      nlinarith [mul_nonneg (show (0:ℚ) ≤ 1 - (v - x0) / (x1 - x0) by linarith)
        (show (0:ℚ) ≤ y1 - y0 by linarith [hy.1])]
    · rw [if_neg (fun hand => hseg hand.2)]
      exact ih hx.2 hy.2 (by linarith [not_le.mp hseg]) h2

theorem lerpScan_exact {x0 y0 : ℚ} {rest : List (ℚ × ℚ)} {p : ℚ × ℚ}
    (hx : List.Chain' (fun a c => a.1 < c.1) ((x0, y0) :: rest))
    (hp : p ∈ rest) :
    lerpScan p.1 ((x0, y0) :: rest) = p.2 := by
  induction rest generalizing x0 y0 with
  | nil => simp at hp
  | cons b rs ih =>
    obtain ⟨x1, y1⟩ := b
    rw [List.chain'_cons] at hx
    unfold lerpScan
    rcases List.mem_cons.mp hp with rfl | hp
    · rw [if_pos ⟨le_of_lt hx.1, le_refl _⟩, if_neg (ne_of_gt hx.1)]
      rw [div_self (by intro h0; exact absurd (sub_eq_zero.mp h0) (ne_of_gt hx.1))]
      ring
    · have hgt : x1 < p.1 := xsorted_lt_of_mem hx.2 p hp
      rw [if_neg (fun hand => absurd hand.2 (not_le.mpr hgt))]
      exact ih hx.2 hp

theorem lerpScan_mono {u v x0 y0 : ℚ} {rest : List (ℚ × ℚ)}
    (hx : List.Chain' (fun a c => a.1 < c.1) ((x0, y0) :: rest))
    (hy : List.Chain' (fun a c => a.2 ≤ c.2) ((x0, y0) :: rest))
    (h1 : x0 ≤ u) (huv : u ≤ v)
    (h2 : v < (((x0, y0) :: rest).getLast (List.cons_ne_nil (x0, y0) rest)).1) :
    lerpScan u ((x0, y0) :: rest) ≤ lerpScan v ((x0, y0) :: rest) := by
  induction rest generalizing x0 y0 with
  | nil =>
    exfalso
    exact absurd (lt_of_le_of_lt (le_trans h1 huv) h2) (lt_irrefl x0)
  | cons b rs ih =>
    obtain ⟨x1, y1⟩ := b
    rw [List.chain'_cons] at hx hy
    rw [getLast_cons_cons] at h2
    by_cases hu1 : u ≤ x1
    · by_cases hv1 : v ≤ x1
      · unfold lerpScan
        rw [if_pos ⟨h1, hu1⟩, if_neg (ne_of_gt hx.1), if_pos ⟨le_trans h1 huv, hv1⟩,
          if_neg (ne_of_gt hx.1)]
        have hd : (u - x0) / (x1 - x0) ≤ (v - x0) / (x1 - x0) :=
          (div_le_div_right (by linarith [hx.1] : (0:ℚ) < x1 - x0)).mpr (by linarith)
        have hdel : (0:ℚ) ≤ y1 - y0 := by linarith [hy.1]
        have hmul := mul_le_mul_of_nonneg_right hd hdel
        linarith
      · have hub : lerpScan u ((x0, y0) :: (x1, y1) :: rs) ≤ y1 := by
          unfold lerpScan
          rw [if_pos ⟨h1, hu1⟩, if_neg (ne_of_gt hx.1)]
          have ht1 : (u - x0) / (x1 - x0) ≤ 1 := by
            rw [div_le_one (by linarith [hx.1] : (0:ℚ) < x1 - x0)]
            linarith
          nlinarith [mul_nonneg (show (0:ℚ) ≤ 1 - (u - x0) / (x1 - x0) by linarith)
            (show (0:ℚ) ≤ y1 - y0 by linarith [hy.1])]
        have hlb : y1 ≤ lerpScan v ((x0, y0) :: (x1, y1) :: rs) := by
          have := lerpScan_lower hx.2 hy.2 (by linarith [not_le.mp hv1]) h2
          unfold lerpScan
          rw [if_neg (fun hand => hv1 hand.2)]
          exact this
        linarith
    · have hu1' : x1 < u := not_le.mp hu1
      unfold lerpScan
      rw [if_neg (fun hand => hu1 hand.2),
        if_neg (fun hand => absurd hand.2 (not_le.mpr (lt_of_lt_of_le hu1' huv)))]
      exact ih hx.2 hy.2 (le_of_lt hu1') h2

theorem xsorted_eq_of_fst_eq {l : List (ℚ × ℚ)}
    (hx : List.Chain' (fun a c => a.1 < c.1) l) {p q : ℚ × ℚ}
    (hp : p ∈ l) (hq : q ∈ l) (h : p.1 = q.1) : p = q := by
  induction l with
  | nil => simp at hp
  | cons a l2 ih =>
    rcases List.mem_cons.mp hp with hp1 | hp1
    · rcases List.mem_cons.mp hq with hq1 | hq1
      · rw [hp1, hq1]
      · subst hp1
        exact absurd h (ne_of_lt (xsorted_lt_of_mem hx q hq1))
    · rcases List.mem_cons.mp hq with hq1 | hq1
      · subst hq1
        exact absurd h.symm (ne_of_lt (xsorted_lt_of_mem hx p hp1))
      · exact ih hx.tail hp1 hq1

theorem xsorted_mem_le_last {b : ℚ × ℚ} {l : List (ℚ × ℚ)}
    (hx : List.Chain' (fun a c => a.1 < c.1) (b :: l)) :
    ∀ p ∈ b :: l, p.1 ≤ ((b :: l).getLast (List.cons_ne_nil b l)).1 := by
  induction l generalizing b with
  | nil =>
    intro p hp
    simp only [List.mem_singleton] at hp
    subst hp
    exact le_refl _
  | cons c cs ih =>
    intro p hp
    rw [getLast_cons_cons]
    rw [List.chain'_cons] at hx
    rcases List.mem_cons.mp hp with rfl | hp
    · exact le_trans (le_of_lt hx.1) (xsorted_head_le_last hx.2)
    · exact ih hx.2 p hp

theorem plerp_exact {bps : List (ℚ × ℚ)}
    (hx : List.Chain' (fun a c => a.1 < c.1) bps) :
    ∀ p ∈ bps, piecewiseLerp p.1 bps = p.2 := by
  intro p hp
  cases bps with
  | nil => simp at hp
  | cons b rest =>
    obtain ⟨x0, y0⟩ := b
    unfold piecewiseLerp
    dsimp only
    rcases List.mem_cons.mp hp with rfl | hp
    · rw [if_pos (le_refl _)]
    · have hlt : x0 < p.1 := xsorted_lt_of_mem hx p hp
      rw [if_neg (not_le.mpr hlt)]
      by_cases hlast :
          (((x0, y0) :: rest).getLast (List.cons_ne_nil (x0, y0) rest)).1 ≤ p.1
      · rw [if_pos hlast]
        have hple := xsorted_mem_le_last hx p (List.mem_cons_of_mem _ hp)
        have heq : p = ((x0, y0) :: rest).getLast (List.cons_ne_nil (x0, y0) rest) :=
          xsorted_eq_of_fst_eq hx (List.mem_cons_of_mem _ hp) (List.getLast_mem _)
            (le_antisymm hple hlast)
        rw [← heq]
      · rw [if_neg hlast]
        exact lerpScan_exact hx hp

theorem plerp_below {b : ℚ × ℚ} {rest : List (ℚ × ℚ)} (v : ℚ) (hv : v < b.1) :
    piecewiseLerp v (b :: rest) = b.2 := by
  unfold piecewiseLerp
  dsimp only
  rw [if_pos (le_of_lt hv)]

theorem plerp_above {b : ℚ × ℚ} {rest : List (ℚ × ℚ)}
    (hx : List.Chain' (fun a c => a.1 < c.1) (b :: rest)) (v : ℚ)
    (hv : ((b :: rest).getLast (List.cons_ne_nil b rest)).1 < v) :
    piecewiseLerp v (b :: rest) =
      ((b :: rest).getLast (List.cons_ne_nil b rest)).2 := by
  unfold piecewiseLerp
  dsimp only
  rw [if_neg (not_le.mpr (lt_of_le_of_lt (xsorted_head_le_last hx) hv)),
    if_pos (le_of_lt hv)]

theorem plerp_mono {bps : List (ℚ × ℚ)}
    (hx : List.Chain' (fun a c => a.1 < c.1) bps)
    (hy : List.Chain' (fun a c => a.2 ≤ c.2) bps)
    {u v : ℚ} (huv : u ≤ v) :
    piecewiseLerp u bps ≤ piecewiseLerp v bps := by
  cases bps with
  | nil => exact le_refl _
  | cons b rest =>
    obtain ⟨x0, y0⟩ := b
    unfold piecewiseLerp
    dsimp only
    by_cases hu0 : u ≤ x0
    · rw [if_pos hu0]
      by_cases hv0 : v ≤ x0
      · rw [if_pos hv0]
      · rw [if_neg hv0]
        by_cases hvl :
            (((x0, y0) :: rest).getLast (List.cons_ne_nil (x0, y0) rest)).1 ≤ v
        · rw [if_pos hvl]
          exact ymono_head_le_last hy
        · rw [if_neg hvl]
          exact lerpScan_lower hx hy (le_of_lt (not_le.mp hv0)) (not_le.mp hvl)
    · rw [if_neg hu0, if_neg (show ¬ v ≤ x0 from fun h => hu0 (le_trans huv h))]
      by_cases hul :
          (((x0, y0) :: rest).getLast (List.cons_ne_nil (x0, y0) rest)).1 ≤ u
      · rw [if_pos hul, if_pos (le_trans hul huv)]
      · rw [if_neg hul]
        by_cases hvl :
            (((x0, y0) :: rest).getLast (List.cons_ne_nil (x0, y0) rest)).1 ≤ v
        · rw [if_pos hvl]
          exact lerpScan_upper hx hy (le_of_lt (not_le.mp hu0)) (not_le.mp hul)
        · rw [if_neg hvl]
          exact lerpScan_mono hx hy (le_of_lt (not_le.mp hu0)) huv (not_le.mp hvl)

/-- C6: for breakpoints with strictly increasing x and non-decreasing y,
piecewise_lerp is monotonic non-decreasing in its value argument, returns
exactly the breakpoint y at any breakpoint x, and clamps to the first
(resp. last) breakpoint y below the first (resp. above the last)
breakpoint x. -/
theorem C6_piecewise_lerp (bps : List (ℚ × ℚ))
    (hx : List.Chain' (fun a c => a.1 < c.1) bps)
    (hy : List.Chain' (fun a c => a.2 ≤ c.2) bps) :
    (∀ u v : ℚ, u ≤ v → piecewiseLerp u bps ≤ piecewiseLerp v bps) ∧
    (∀ p ∈ bps, piecewiseLerp p.1 bps = p.2) ∧
    (∀ b rest, bps = b :: rest →
      (∀ v, v < b.1 → piecewiseLerp v bps = b.2) ∧
      (∀ v, ((b :: rest).getLast (List.cons_ne_nil b rest)).1 < v →
        piecewiseLerp v bps = ((b :: rest).getLast (List.cons_ne_nil b rest)).2)) := by
  refine ⟨fun u v huv => plerp_mono hx hy huv, plerp_exact hx, ?_⟩
  rintro b rest rfl
  exact ⟨fun v hv => plerp_below v hv, fun v hv => plerp_above hx v hv⟩

theorem C6_witness :
    (List.Chain' (fun a c : ℚ × ℚ => a.1 < c.1) [(0, 0), (10, 100)] ∧
     List.Chain' (fun a c : ℚ × ℚ => a.2 ≤ c.2) [(0, 0), (10, 100)]) ∧
    ((∀ u v : ℚ, u ≤ v →
        piecewiseLerp u [(0, 0), (10, 100)] ≤ piecewiseLerp v [(0, 0), (10, 100)]) ∧
     (∀ p ∈ [((0 : ℚ), (0 : ℚ)), (10, 100)],
        piecewiseLerp p.1 [(0, 0), (10, 100)] = p.2) ∧
     (∀ b rest, [((0 : ℚ), (0 : ℚ)), (10, 100)] = b :: rest →
       (∀ v, v < b.1 → piecewiseLerp v [(0, 0), (10, 100)] = b.2) ∧
       (∀ v, ((b :: rest).getLast (List.cons_ne_nil b rest)).1 < v →
         piecewiseLerp v [(0, 0), (10, 100)] =
           ((b :: rest).getLast (List.cons_ne_nil b rest)).2))) :=
  ⟨⟨by norm_num [List.chain'_cons], by norm_num [List.chain'_cons]⟩,
   C6_piecewise_lerp [(0, 0), (10, 100)] (by norm_num [List.chain'_cons])
     (by norm_num [List.chain'_cons])⟩

/-! ### Database round-trip lemmas (C8) -/

theorem find_assocReplace {β : Type} (l : List (String × β)) (k : String) (v : β) :
    (assocReplace l k v).find? (fun p => p.1 == k) = some (k, v) := by
  unfold assocReplace
  split_ifs with hany
  · induction l with
    | nil => simp at hany
    | cons p ps ih =>
      by_cases hk : p.1 = k
      · simp only [List.map_cons, if_pos hk, List.find?_cons]
        rw [show (k == k) = true from by simp]
      · simp only [List.map_cons, if_neg hk, List.find?_cons]
        rw [show (p.1 == k) = false from by simpa using hk]
        apply ih
        simp only [List.any_cons, Bool.or_eq_true] at hany
        rcases hany with h1 | h1
        · exact absurd (by simpa using h1) hk
        · exact h1
  · induction l with
    | nil =>
      simp only [List.nil_append, List.find?_cons]
      rw [show (k == k) = true from by simp]
    | cons p ps ih =>
      simp only [List.any_cons, Bool.or_eq_true, not_or] at hany
      simp only [List.cons_append, List.find?_cons]
      rw [show (p.1 == k) = false from by simpa using hany.1]
      exact ih (by simpa using hany.2)

theorem find_filter_ne {β : Type} (l : List (String × β)) (k : String) :
    (l.filter (fun p => decide (p.1 ≠ k))).find? (fun p => p.1 == k) = none := by
  rw [List.find?_eq_none]
  intro x hx
  have := List.of_mem_filter hx
  simp only [decide_eq_true_eq] at this
  simpa using this

/-- C8: add_trade then get_active_trade returns the same entry price, size
and stop parameters with current_stop_price = entry x (1 - stop_pct/100);
close_trade on an active trade (positive entry price) removes it from the
active table and appends exactly one history row whose total (realized_pnl
column) equals realized_pnl + remaining_fraction x size x (exit-entry)/entry. -/
theorem C8_trade_roundtrip_and_close (db db2 : DBState) (sym : String)
    (ep ps sl now exitp now2 : ℚ) (reason : String) (t : Trade)
    (ht : Database.getActiveTrade db2 sym = some t) (ht0 : 0 < t.entry_price) :
    (Database.getActiveTrade (Database.addTradeDB db sym ep ps sl now) sym =
       some (Database.addTrade ep ps sl now) ∧
     (Database.addTrade ep ps sl now).entry_price = ep ∧
     (Database.addTrade ep ps sl now).position_size_usd = ps ∧
     (Database.addTrade ep ps sl now).stop_loss_pct = sl ∧
     (Database.addTrade ep ps sl now).current_stop_price = ep * (1 - sl / 100)) ∧
    (Database.getActiveTrade (Database.closeTrade db2 sym exitp now2 reason).2 sym =
       none ∧
     (Database.closeTrade db2 sym exitp now2 reason).2.trade_history =
       db2.trade_history ++ [⟨sym, t.entry_price, exitp, t.position_size_usd,
         t.realized_pnl + t.remaining_fraction * t.position_size_usd *
           (exitp - t.entry_price) / t.entry_price,
         t.entry_timestamp, now2, (now2 - t.entry_timestamp) / 3600,
         (exitp - t.entry_price) / t.entry_price * 100, reason⟩]) := by
  constructor
  · refine ⟨?_, rfl, rfl, rfl, rfl⟩
    unfold Database.getActiveTrade Database.addTradeDB
    rw [find_assocReplace]
    rfl
  · unfold Database.closeTrade
    rw [ht]
    dsimp only
    constructor
    · unfold Database.getActiveTrade
      dsimp only
      rw [find_filter_ne]
      rfl
    · rfl

theorem C8_witness :
    (Database.getActiveTrade ⟨[("BTC", Database.addTrade 100 10000 7 0)], []⟩ "BTC" =
       some (Database.addTrade 100 10000 7 0) ∧
     (0:ℚ) < (Database.addTrade 100 10000 7 0).entry_price) ∧
    ((Database.getActiveTrade
        (Database.addTradeDB ⟨[], []⟩ "BTC" 100 10000 7 0) "BTC" =
        some (Database.addTrade 100 10000 7 0) ∧
      (Database.addTrade 100 10000 7 0).entry_price = 100 ∧
      (Database.addTrade 100 10000 7 0).position_size_usd = 10000 ∧
      (Database.addTrade 100 10000 7 0).stop_loss_pct = 7 ∧
      (Database.addTrade 100 10000 7 0).current_stop_price = 100 * (1 - 7 / 100)) ∧
     (Database.getActiveTrade
        (Database.closeTrade ⟨[("BTC", Database.addTrade 100 10000 7 0)], []⟩
          "BTC" 110 3600 "manual").2 "BTC" = none ∧
      (Database.closeTrade ⟨[("BTC", Database.addTrade 100 10000 7 0)], []⟩
          "BTC" 110 3600 "manual").2.trade_history =
        [] ++ [⟨"BTC", (Database.addTrade 100 10000 7 0).entry_price, 110,
          (Database.addTrade 100 10000 7 0).position_size_usd,
          (Database.addTrade 100 10000 7 0).realized_pnl +
            (Database.addTrade 100 10000 7 0).remaining_fraction *
            (Database.addTrade 100 10000 7 0).position_size_usd *
            (110 - (Database.addTrade 100 10000 7 0).entry_price) /
            (Database.addTrade 100 10000 7 0).entry_price,
          (Database.addTrade 100 10000 7 0).entry_timestamp, 3600,
          (3600 - (Database.addTrade 100 10000 7 0).entry_timestamp) / 3600,
          (110 - (Database.addTrade 100 10000 7 0).entry_price) /
            (Database.addTrade 100 10000 7 0).entry_price * 100, "manual"⟩])) :=
  ⟨⟨rfl, by norm_num [Database.addTrade]⟩,
   C8_trade_roundtrip_and_close ⟨[], []⟩ ⟨[("BTC", Database.addTrade 100 10000 7 0)], []⟩
     "BTC" 100 10000 7 0 110 3600 "manual" (Database.addTrade 100 10000 7 0) rfl
     (by norm_num [Database.addTrade])⟩

/-! ### Alert dispatch lemmas (C9) -/

theorem mem_insertBy {α : Type} (le : α → α → Bool) (a x : α) (l : List α) :
    x ∈ insertBy le a l ↔ x = a ∨ x ∈ l := by
  induction l with
  | nil => simp [insertBy]
  | cons b bs ih =>
    unfold insertBy
    split_ifs
    · simp [List.mem_cons]
    · simp only [List.mem_cons, ih]
      tauto

theorem mem_sortBy {α : Type} (le : α → α → Bool) (x : α) (l : List α) :
    x ∈ sortBy le l ↔ x ∈ l := by
  induction l with
  | nil => simp [sortBy]
  | cons b bs ih =>
    show x ∈ insertBy le b (sortBy le bs) ↔ _
    rw [mem_insertBy, ih]
    simp [List.mem_cons]

/-- C9 (amended): an event is dispatched iff it was detected on a scanned
token whose composite score meets the alert threshold (regardless of
classification); a signal alert is dispatched iff the result meets the
threshold AND is classified WATCHLIST, HIGH_ALERT or CRITICAL. -/
theorem C9_dispatch_characterization (threshold : ℚ) (scanned : List ScanResult)
    (e : Event) (r : ScanResult) :
    (e ∈ (Scanner.runOnceDispatch threshold scanned).2 ↔
      ∃ s ∈ scanned, threshold ≤ s.composite_score ∧ e ∈ s.events) ∧
    (r ∈ (Scanner.runOnceDispatch threshold scanned).1 ↔
      r ∈ scanned ∧ threshold ≤ r.composite_score ∧
      r.classification ∈ ["CRITICAL", "HIGH_ALERT", "WATCHLIST"]) := by
  constructor
  · unfold Scanner.runOnceDispatch Scanner.sendAlerts sortResults
    simp only [List.mem_join, List.mem_map]
    constructor
    · rintro ⟨l, ⟨s, hs, rfl⟩, he⟩
      rw [mem_sortBy] at hs
      have hs2 := List.of_mem_filter hs
      simp only [decide_eq_true_eq] at hs2
      exact ⟨s, List.mem_of_mem_filter hs, hs2, he⟩
    · rintro ⟨s, hs, hth, he⟩
      refine ⟨s.events, ⟨s, ?_, rfl⟩, he⟩
      rw [mem_sortBy]
      exact List.mem_filter.mpr ⟨hs, by simpa using hth⟩
  · unfold Scanner.runOnceDispatch Scanner.sendAlerts sortResults
    constructor
    · intro hr
      have hcl := List.of_mem_filter hr
      simp only [decide_eq_true_eq] at hcl
      have hr2 := List.mem_of_mem_filter hr
      rw [mem_sortBy] at hr2
      have hth := List.of_mem_filter hr2
      simp only [decide_eq_true_eq] at hth
      exact ⟨List.mem_of_mem_filter hr2, hth, hcl⟩
    · rintro ⟨hs, hth, hcl⟩
      refine List.mem_filter.mpr ⟨?_, by simpa using hcl⟩
      rw [mem_sortBy]
      exact List.mem_filter.mpr ⟨hs, by simpa using hth⟩

/-- C9 counterexample: a token scoring 47 (below the default alert
threshold 48) with a detected SCORE_JUMP event: run_once drops it before
_send_alerts, so NO event is dispatched even though one was detected --
events do NOT fire regardless of composite score. -/
theorem C9_counterexample :
    c9Result.events = [c9Event] ∧ c9Result.composite_score < 48 ∧
    (Scanner.runOnceDispatch 48 [c9Result]).2 = [] := by
  refine ⟨rfl, by norm_num [c9Result], ?_⟩
  have hf : ([c9Result].filter
      (fun r => decide ((48:ℚ) ≤ r.composite_score))) = [] := by
    rw [List.filter_cons]
    rw [if_neg (by norm_num [c9Result])]
    rfl
  unfold Scanner.runOnceDispatch
  rw [hf]
  rfl

/-! ### detect_events lemmas (C10) -/

theorem length_insertBy {α : Type} (le : α → α → Bool) (a : α) (l : List α) :
    (insertBy le a l).length = l.length + 1 := by
  induction l with
  | nil => rfl
  | cons b bs ih =>
    unfold insertBy
    split_ifs
    · rfl
    · simp [ih]

theorem length_sortBy {α : Type} (le : α → α → Bool) (l : List α) :
    (sortBy le l).length = l.length := by
  induction l with
  | nil => rfl
  | cons b bs ih =>
    show (insertBy le b (sortBy le bs)).length = _
    rw [length_insertBy, ih]
    rfl

/-- C10: when the score history holds at most one row for the symbol (the
one just written by score(); get_previous_score needs two), detect_events
returns the empty event list -- no SCORE_JUMP, UPGRADE or IGNITION -- for
every ticker history, current score and current price. -/
theorem C10_no_previous_no_events (scoreHist : List ScoreRow)
    (tickHist : List TickerSnap) (symbol : String) (cs cp : ℚ) (cc : String)
    (h : (scoreHist.filter (fun r => r.symbol == symbol)).length ≤ 1) :
    Scorer.detectEvents scoreHist tickHist symbol cs cc cp = [] := by
  unfold Scorer.detectEvents Database.getPreviousScore
  have hlen : (sortBy (fun a b => decide (b.timestamp ≤ a.timestamp))
      (scoreHist.filter (fun r => r.symbol == symbol))).length ≤ 1 := by
    rw [length_sortBy]
    exact h
  rcases hl : sortBy (fun a b => decide (b.timestamp ≤ a.timestamp))
      (scoreHist.filter (fun r => r.symbol == symbol)) with _ | ⟨a, rest⟩
  · rw [hl]
    rfl
  · rw [hl] at hlen
    rcases rest with _ | ⟨b, rest2⟩
    · rw [hl]
      rfl
    · exfalso
      simp at hlen

theorem C10_witness :
    (([⟨0, "BTC", 80, "CRITICAL"⟩] : List ScoreRow).filter
      (fun r => r.symbol == "BTC")).length ≤ 1 ∧
    Scorer.detectEvents [⟨0, "BTC", 80, "CRITICAL"⟩] [⟨100, 0, 0⟩]
      "BTC" 80 "CRITICAL" 110 = [] :=
  ⟨by simp [List.filter], C10_no_previous_no_events _ _ _ _ _ _ (by simp [List.filter])⟩

/-! ### C7: the nine signal computations degrade gracefully -/

theorem sigOK_degraded {α : Type} [LinearOrderedField α] (r : Option String) :
    SigOK (⟨0, 0, r⟩ : Signal α) := by
  unfold SigOK
  exact ⟨⟨le_refl 0, by norm_num⟩, fun _ => ⟨rfl, rfl⟩⟩

theorem sigOK_main {α : Type} [LinearOrderedField α] [FloorRing α]
    (rv : α) (n : ℕ) (x : α) :
    SigOK (⟨rv, pyRound n (clamp x 0 100), none⟩ : Signal α) := by
  unfold SigOK
  exact ⟨round_clamp_bound n x, fun hr => absurd rfl hr⟩

theorem sigOK_oiSurge (data : DataBundle) (histOI : List OISnap)
    (tickHist : List TickerSnap) : SigOK (computeOISurge data histOI tickHist) := by
  unfold computeOISurge
  dsimp only
  split_ifs
  all_goals first
    | exact sigOK_degraded _
    | exact sigOK_main _ _ _

theorem sigOK_fundingRate (data : DataBundle) (fundHist : List FundingSnap) :
    SigOK (computeFundingRate data fundHist) := by
  unfold computeFundingRate
  dsimp only
  split_ifs
  all_goals first
    | exact sigOK_degraded _
    | exact sigOK_main _ _ _

theorem sigOK_liqLeverage (data : DataBundle) :
    SigOK (computeLiquidationLeverage data) := by
  unfold computeLiquidationLeverage
  dsimp only
  split_ifs
  all_goals first
    | exact sigOK_degraded _
    | exact sigOK_main _ _ _

theorem sigOK_singleExchange (volumes : List (String × ℚ))
    (tickHist : List TickerSnap) : SigOK (singleExchangeVolume volumes tickHist) := by
  unfold singleExchangeVolume
  dsimp only
  split_ifs
  all_goals first
    | exact sigOK_degraded _
    | exact sigOK_main _ _ _

theorem sigOK_crossExchange (data : DataBundle) (tickHist : List TickerSnap) :
    SigOK (computeCrossExchangeVolume data tickHist) := by
  unfold computeCrossExchangeVolume
  dsimp only
  split_ifs
  all_goals first
    | exact sigOK_degraded _
    | exact sigOK_main _ _ _
    | exact sigOK_singleExchange _ _

theorem sigOK_depthImbalance (data : DataBundle) :
    SigOK (computeDepthImbalance data) := by
  unfold computeDepthImbalance
  dsimp only
  split_ifs
  all_goals first
    | exact sigOK_degraded _
    | exact sigOK_main _ _ _

theorem sigOK_volPriceDecouple (data : DataBundle) :
    SigOK (computeVolumePriceDecouple data) := by
  unfold computeVolumePriceDecouple
  dsimp only
  split_ifs
  all_goals first
    | exact sigOK_degraded _
    | exact sigOK_main _ _ _

theorem sigOK_volCompression (data : DataBundle) :
    SigOK (computeVolatilityCompression data) := by
  unfold computeVolatilityCompression
  dsimp only
  split_ifs
  all_goals first
    | exact sigOK_degraded _
    | exact sigOK_main _ _ _

theorem sigOK_longShort (data : DataBundle) (lsHist : List LSSnap) :
    SigOK (computeLongShortRatio data lsHist) := by
  unfold computeLongShortRatio
  dsimp only
  split_ifs
  all_goals first
    | exact sigOK_degraded _
    | exact sigOK_main _ _ _

theorem sigOK_futuresSpot (data : DataBundle) (tickHist : List TickerSnap) :
    SigOK (computeFuturesSpotDivergence data tickHist) := by
  unfold computeFuturesSpotDivergence
  dsimp only
  split_ifs
  all_goals first
    | exact sigOK_degraded _
    | exact sigOK_main _ _ _

/-- C7: every one of the nine signal computations is a total function of
the data bundle and the database history (no exception paths exist in
the embedding), its normalized score always lies in [0,100], and every
degradation reason comes with the neutral result raw 0 / normalized 0;
in particular oi_surge with positive current open interest but an empty
72h open-interest snapshot window returns raw 0, normalized 0, and
reason "no hist OI". -/
theorem C7_signals_total_bounded
    (data : DataBundle) (histOI : List OISnap) (tickHist : List TickerSnap)
    (fundHist : List FundingSnap) (lsHist : List LSSnap) :
    SigOK (computeOISurge data histOI tickHist) ∧
    SigOK (computeFundingRate data fundHist) ∧
    SigOK (computeLiquidationLeverage data) ∧
    SigOK (computeCrossExchangeVolume data tickHist) ∧
    SigOK (computeDepthImbalance data) ∧
    SigOK (computeVolumePriceDecouple data) ∧
    SigOK (computeVolatilityCompression data) ∧
    SigOK (computeLongShortRatio data lsHist) ∧
    SigOK (computeFuturesSpotDivergence data tickHist) ∧
    (¬(data.open_interest.filter (fun p => decide (0 < p.2))).isEmpty →
      histOI = [] →
      computeOISurge data histOI tickHist = ⟨0, 0, some "no hist OI"⟩) := by
  refine ⟨sigOK_oiSurge data histOI tickHist, sigOK_fundingRate data fundHist,
    sigOK_liqLeverage data, sigOK_crossExchange data tickHist,
    sigOK_depthImbalance data, sigOK_volPriceDecouple data,
    sigOK_volCompression data, sigOK_longShort data lsHist,
    sigOK_futuresSpot data tickHist, ?_⟩
  intro hcur hhist
  subst hhist
  unfold computeOISurge
  dsimp only
  rw [if_neg hcur]
  rfl

theorem C7_witness :
    ¬(c7Bundle.open_interest.filter (fun p => decide (0 < p.2))).isEmpty ∧
    computeOISurge c7Bundle [] [] = ⟨0, 0, some "no hist OI"⟩ := by
  have hcur : ¬(c7Bundle.open_interest.filter (fun p => decide (0 < p.2))).isEmpty := by
    norm_num [c7Bundle, List.filter_cons]
  exact ⟨hcur,
    (C7_signals_total_bounded c7Bundle [] [] [] []).2.2.2.2.2.2.2.2.2 hcur rfl⟩

end Pump
